import Mathlib

/-!
# Thermo 26 Click driver: embedding of `thermo26.c` / `thermo26.h`

The driver talks to a temperature sensor over I2C through the STM32 HAL.
The HAL is an external collaborator; it is modelled as an oracle that answers
every bus call as a function of the complete history of HAL calls made so
far.  Every driver function threads that history (the `trace`) explicitly.

Machine integers are natural numbers, reduced `% 2^w` where the C code stores
into a `uint8_t` / `uint16_t`.  The `float` temperature is computed over `ℚ`.
-/

namespace Thermo26

/-! ## External HAL types -/

/-- Status enumeration of the STM32 HAL (`stm32g4xx_hal_def.h`, included through
`stm32g4xx_hal.h`): `HAL_OK = 0`, `HAL_ERROR = 1`, `HAL_BUSY = 2`,
`HAL_TIMEOUT = 3`. -/
inductive HAL_StatusTypeDef where
  | HAL_OK
  | HAL_ERROR
  | HAL_BUSY
  | HAL_TIMEOUT
  deriving DecidableEq, Repr

open HAL_StatusTypeDef

/-- Numeric value of a status enumerator. -/
def HAL_StatusTypeDef.value : HAL_StatusTypeDef → Nat
  | HAL_OK => 0
  | HAL_ERROR => 1
  | HAL_BUSY => 2
  | HAL_TIMEOUT => 3

/-- Conversion of an integer back to the enumeration (only `0..3` ever occur). -/
def HAL_StatusTypeDef.of_value : Nat → HAL_StatusTypeDef
  | 0 => HAL_OK
  | 1 => HAL_ERROR
  | 2 => HAL_BUSY
  | _ => HAL_TIMEOUT

/-- The C compound assignment `a |= b` on two status values: bitwise OR of the
enumerator values, converted back to the enumeration. -/
def HAL_StatusTypeDef.lor (a b : HAL_StatusTypeDef) : HAL_StatusTypeDef :=
  HAL_StatusTypeDef.of_value (a.value ||| b.value)

/-- Pin level of the STM32 HAL: `GPIO_PIN_RESET = 0`, `GPIO_PIN_SET = 1`. -/
inductive GPIO_PinState where
  | GPIO_PIN_RESET
  | GPIO_PIN_SET
  deriving DecidableEq, Repr

/-- One call into the HAL, with the arguments the driver passed.  Pointers
(`hi2c`, `GPIOx`) are opaque addresses; `pData` of a transmit is the `Size`
bytes read from the buffer. -/
inductive Event where
  | transmit (hi2c : Nat) (DevAddress : Nat) (pData : List Nat) (Timeout : Nat)
  | receive (hi2c : Nat) (DevAddress : Nat) (Size : Nat) (Timeout : Nat)
  | gpio_write (GPIOx : Nat) (GPIO_Pin : Nat) (PinState : GPIO_PinState)
  | delay (Delay : Nat)
  deriving DecidableEq, Repr

/-- The bus behind the HAL.  Each answer may depend on everything that happened
so far; the list passed in is the history with the present call as last element.
`i2c_receive` yields the status and the bytes the HAL wrote into the buffer. -/
structure HAL where
  i2c_transmit : List Event → HAL_StatusTypeDef
  i2c_receive : List Event → HAL_StatusTypeDef × List Nat

/-- `HAL_I2C_Master_Transmit (hi2c, DevAddress, pData, Size, Timeout)`. -/
def HAL_I2C_Master_Transmit (hal : HAL) (hi2c DevAddress : Nat) (pData : List Nat)
    (Size Timeout : Nat) (trace : List Event) : HAL_StatusTypeDef × List Event :=
  let trace1 := trace ++ [Event.transmit hi2c DevAddress (pData.take Size) Timeout]
  (hal.i2c_transmit trace1, trace1)

/-- `HAL_I2C_Master_Receive (hi2c, DevAddress, pData, Size, Timeout)`: the
buffer `pData` keeps its old content wherever the HAL wrote nothing; each
stored element is a `uint8_t`. -/
def HAL_I2C_Master_Receive (hal : HAL) (hi2c DevAddress : Nat) (pData : List Nat)
    (Size Timeout : Nat) (trace : List Event) :
    HAL_StatusTypeDef × List Nat × List Event :=
  let trace1 := trace ++ [Event.receive hi2c DevAddress Size Timeout]
  let answer := hal.i2c_receive trace1
  let written := answer.2.take Size
  let pData1 := (List.range pData.length).map
    (fun i => if i < written.length then written.getD i 0 % 256 else pData.getD i 0)
  (answer.1, pData1, trace1)

/-- `HAL_GPIO_WritePin (GPIOx, GPIO_Pin, PinState)`. -/
def HAL_GPIO_WritePin (GPIOx GPIO_Pin : Nat) (PinState : GPIO_PinState)
    (trace : List Event) : List Event :=
  trace ++ [Event.gpio_write GPIOx GPIO_Pin PinState]

/-- `HAL_Delay (Delay)`. -/
def HAL_Delay (Delay : Nat) (trace : List Event) : List Event :=
  trace ++ [Event.delay Delay]

/-! ## Constants of `thermo26.h` and `thermo26.c` -/

def THERMO26_POLYNOM : Nat := 0x31
def THERMO26_INIT_VALUE : Nat := 0xFF

def THERMO26_CMD_PERIODIC_1_MPS_REP_HIGH : Nat := 0x2130
def THERMO26_CMD_FETCH_DATA : Nat := 0xE000
def THERMO26_CMD_BREAK : Nat := 0x3093

def THERMO26_DATA_RESOLUTION : ℚ := 65535
def THERMO26_ABS_MIN_TEMP : ℚ := -45
def THERMO26_ABS_MAX_TEMP : ℚ := 130

def THERMO26_DEVICE_ADDRESS_0 : Nat := 0x4A <<< 1
def THERMO26_DEVICE_ADDRESS_1 : Nat := 0x4B <<< 1

/-- `GPIOC` of the device header: the base address of GPIO port C. -/
def GPIOC : Nat := 0x48000800
/-- `GPIO_PIN_6` of the HAL. -/
def GPIO_PIN_6 : Nat := 0x0040

def RST_PORT : Nat := GPIOC
def RST_PIN : Nat := GPIO_PIN_6

/-- The click context object `thermo26_t`. -/
structure thermo26_t where
  rst_port : Nat
  rst_pin : Nat
  slave_address : Nat
  i2c : Nat
  deriving DecidableEq, Repr

/-! ## Checksum (`thermo26_calculate_crc`) -/

/-- Body of the inner `bit_cnt` loop: one shift of the 8-bit register. -/
def crc_bit_body (crc : Nat) : Nat :=
  if crc &&& 0x80 ≠ 0 then
    ((crc <<< 1) ^^^ THERMO26_POLYNOM) % 256
  else
    (crc <<< 1) % 256

/-- The inner loop `for (bit_cnt = 0; bit_cnt < 8; bit_cnt++)`, entered at
`bit_cnt`, with `fuel` bounding the iterations still to run. -/
def crc_bit_loop : Nat → Nat → Nat → Nat
  | 0, _, crc => crc
  | fuel + 1, bit_cnt, crc =>
    if bit_cnt < 8 then crc_bit_loop fuel (bit_cnt + 1) (crc_bit_body crc) else crc

/-- The outer loop `for (byte_cnt = 0; byte_cnt < 2; byte_cnt++)`. -/
def crc_byte_loop (crc_source : List Nat) : Nat → Nat → Nat → Nat
  | 0, _, crc => crc
  | fuel + 1, byte_cnt, crc =>
    if byte_cnt < 2 then
      crc_byte_loop crc_source fuel (byte_cnt + 1)
        (crc_bit_loop 8 0 ((crc ^^^ crc_source.getD byte_cnt 0) % 256))
    else crc

/-- `thermo26_calculate_crc (crc_source)`: `crc_source` is the byte array the
pointer refers to; only elements 0 and 1 are read. -/
def thermo26_calculate_crc (crc_source : List Nat) : Nat :=
  crc_byte_loop crc_source 2 0 THERMO26_INIT_VALUE

/-! ## Driver operations -/

/-- `thermo26_init (ctx, i2c)`; `rst_pin` and `slave_address` are `uint8_t`. -/
def thermo26_init (_ctx : thermo26_t) (i2c : Nat) : thermo26_t :=
  { i2c := i2c
    slave_address := THERMO26_DEVICE_ADDRESS_0 % 256
    rst_port := RST_PORT
    rst_pin := RST_PIN % 256 }

/-- The two bytes `data_buf` that `thermo26_write_command` builds from `cmd`. -/
def thermo26_cmd_bytes (cmd : Nat) : List Nat :=
  [((cmd >>> 8) &&& 0xFF) % 256, (cmd &&& 0xFF) % 256]

/-- `thermo26_write_command (ctx, cmd)`. -/
def thermo26_write_command (hal : HAL) (ctx : thermo26_t) (cmd : Nat)
    (trace : List Event) : HAL_StatusTypeDef × List Event :=
  let data_buf := thermo26_cmd_bytes cmd
  HAL_I2C_Master_Transmit hal ctx.i2c ctx.slave_address data_buf 2 100 trace

/-- The 16-bit word `((uint16_t) data_buf[0] << 8) | data_buf[1]` that
`thermo26_read_command` stores through `data_out`. -/
def thermo26_data_word (data_buf : List Nat) : Nat :=
  (((data_buf.getD 0 0 % 65536) <<< 8) ||| data_buf.getD 1 0) % 65536

/-- `thermo26_read_command (ctx, cmd, data_out)`.  The argument `data_out` is
the value behind the pointer before the call; the second component of the
result is the value behind it afterwards. -/
def thermo26_read_command (hal : HAL) (ctx : thermo26_t) (cmd : Nat) (data_out : Nat)
    (trace : List Event) : HAL_StatusTypeDef × Nat × List Event :=
  let data_buf0 : List Nat := [0, 0, 0]
  let w := thermo26_write_command hal ctx cmd trace
  let r := HAL_I2C_Master_Receive hal ctx.i2c ctx.slave_address data_buf0 3 100 w.2
  let error_flag := w.1.lor r.1
  let data_buf := r.2.1
  if HAL_OK = error_flag ∧ data_buf.getD 2 0 = thermo26_calculate_crc data_buf then
    (HAL_OK, thermo26_data_word data_buf, r.2.2)
  else
    (HAL_ERROR, data_out, r.2.2)

/-- `thermo26_reset_device (ctx)`. -/
def thermo26_reset_device (ctx : thermo26_t) (trace : List Event) : List Event :=
  let t1 := HAL_GPIO_WritePin ctx.rst_port ctx.rst_pin GPIO_PinState.GPIO_PIN_RESET trace
  let t2 := HAL_Delay 1 t1
  let t3 := HAL_GPIO_WritePin ctx.rst_port ctx.rst_pin GPIO_PinState.GPIO_PIN_SET t2
  HAL_Delay 100 t3

/-- `thermo26_set_rst_pin (ctx, state)`. -/
def thermo26_set_rst_pin (ctx : thermo26_t) (_state : Nat) (trace : List Event) :
    List Event :=
  HAL_GPIO_WritePin ctx.rst_port ctx.rst_pin GPIO_PinState.GPIO_PIN_RESET trace

/-- `thermo26_start_measurement (ctx, cmd)`. -/
def thermo26_start_measurement (hal : HAL) (ctx : thermo26_t) (cmd : Nat)
    (trace : List Event) : HAL_StatusTypeDef × List Event :=
  let w := thermo26_write_command hal ctx cmd trace
  let error_flag := w.1
  (error_flag, HAL_Delay 20 w.2)

/-- `thermo26_stop_measurement (ctx)`. -/
def thermo26_stop_measurement (hal : HAL) (ctx : thermo26_t)
    (trace : List Event) : HAL_StatusTypeDef × List Event :=
  let w := thermo26_write_command hal ctx THERMO26_CMD_BREAK trace
  let error_flag := w.1
  (error_flag, HAL_Delay 1 w.2)

/-- The conversion expression of `thermo26_read_temperature`,
`THERMO26_ABS_MIN_TEMP + (THERMO26_ABS_MAX_TEMP - THERMO26_ABS_MIN_TEMP) * raw_temp
/ THERMO26_DATA_RESOLUTION`, over exact rationals (rounding of `float` is not
modelled). -/
def thermo26_raw_to_celsius (raw_temp : Nat) : ℚ :=
  THERMO26_ABS_MIN_TEMP +
    (THERMO26_ABS_MAX_TEMP - THERMO26_ABS_MIN_TEMP) * (raw_temp : ℚ) / THERMO26_DATA_RESOLUTION

/-- `thermo26_read_temperature (ctx, temperature)`.  `temperature` is the value
behind the out-pointer before the call, `raw_temp` the indeterminate initial
value of the local of that name. -/
def thermo26_read_temperature (hal : HAL) (ctx : thermo26_t) (temperature : ℚ)
    (raw_temp : Nat) (trace : List Event) : HAL_StatusTypeDef × ℚ × List Event :=
  let s := thermo26_start_measurement hal ctx THERMO26_CMD_PERIODIC_1_MPS_REP_HIGH trace
  let r := thermo26_read_command hal ctx THERMO26_CMD_FETCH_DATA raw_temp s.2
  let error_flag := s.1.lor r.1
  let raw_temp1 := r.2.1
  if error_flag = HAL_OK then
    (HAL_OK, thermo26_raw_to_celsius raw_temp1, r.2.2)
  else
    (HAL_ERROR, temperature, r.2.2)

/-! ## Sample environments -/

/-- A bus that answers every transmit with `tx` and every receive with the
status `rx` and the bytes `bytes`. -/
def hal_const (tx rx : HAL_StatusTypeDef) (bytes : List Nat) : HAL :=
  { i2c_transmit := fun _ => tx
    i2c_receive := fun _ => (rx, bytes) }

/-- A context as `thermo26_init` leaves it, for an I2C handle at 0x20000000. -/
def ctx_sample : thermo26_t :=
  thermo26_init { rst_port := 0, rst_pin := 0, slave_address := 0, i2c := 0 } 0x20000000

/-! ## Reference definition of the checksum: polynomial division over GF(2)

A polynomial over GF(2) is the natural number whose binary digits are its
coefficients: bit `i` is the coefficient of `x^i`.  Addition is `^^^`,
multiplication by `x^i` is `<<< i`. -/

/-- Long division by `g`: for `i` counting down, cancel the coefficient of
`x^(deg g + i)` of the running dividend by adding `x^i * g`.  `todo` is the
number of coefficients above `deg g - 1` still to cancel. -/
def gf2_mod_loop (g : Nat) : Nat → Nat → Nat
  | 0, m => m
  | todo + 1, m =>
    gf2_mod_loop g todo (if m.testBit (g.log2 + todo) then m ^^^ (g <<< todo) else m)

/-- Remainder of the division of the polynomial `m` by the polynomial `g` over
GF(2): all coefficients of `m` from its leading one down to `deg g` are
cancelled. -/
def gf2_mod (m g : Nat) : Nat :=
  gf2_mod_loop g (m.log2 + 1 - g.log2) m

/-- Sum of the multiples `x^i * b` over the `n` lowest coefficients `i` of `a`
that are one. -/
def gf2_mul_loop (a b : Nat) : Nat → Nat
  | 0 => 0
  | n + 1 => (if a.testBit n then b <<< n else 0) ^^^ gf2_mul_loop a b n

/-- Product of the polynomials `a` and `b` over GF(2). -/
def gf2_mul (a b : Nat) : Nat :=
  gf2_mul_loop a b (a.log2 + 1)

/-- The generator polynomial `x^8 + x^5 + x^4 + 1`. -/
def crc8_generator : Nat := 2 ^ 8 + 2 ^ 5 + 2 ^ 4 + 1

/-- The dividend of the CRC-8 of the 16-bit message `b0‖b1`: the initial register
0xFF is added to the first byte, and the message is shifted up by 8 bits. -/
def crc8_dividend (b0 b1 : Nat) : Nat :=
  (((b0 <<< 8) ||| b1) ^^^ (0xFF <<< 8)) <<< 8

/-- CRC-8, polynomial 0x31, initial value 0xFF, not reflected, no final XOR, of
the two bytes `b0`, `b1`, as a remainder of polynomial division. -/
def crc8_reference (b0 b1 : Nat) : Nat :=
  gf2_mod (crc8_dividend b0 b1) crc8_generator

/-! ## Observations on the HAL call history -/

/-- Level of the pin `GPIO_Pin` of port `GPIOx` after the calls of `trace`: the
state given by the latest `HAL_GPIO_WritePin` to that pin, if there was one. -/
def pin_level (GPIOx GPIO_Pin : Nat) : List Event → Option GPIO_PinState
  | [] => none
  | Event.gpio_write port pin state :: rest =>
    match pin_level GPIOx GPIO_Pin rest with
    | some later => some later
    | none => if port = GPIOx ∧ pin = GPIO_Pin then some state else none
  | _ :: rest => pin_level GPIOx GPIO_Pin rest

/-- The device address a bus call was made with; `none` for calls that are not
bus transfers. -/
def Event.bus_address : Event → Option Nat
  | Event.transmit _ DevAddress _ _ => some DevAddress
  | Event.receive _ DevAddress _ _ => some DevAddress
  | Event.gpio_write _ _ _ => none
  | Event.delay _ => none

/-- The pin level that a logic state argument asks for: low for 0, high for
every other value. -/
def requested_level (state : Nat) : GPIO_PinState :=
  if state = 0 then GPIO_PinState.GPIO_PIN_RESET else GPIO_PinState.GPIO_PIN_SET

/-! ## Sequences of driver calls on one handle -/

/-- One call of a driver function other than `thermo26_init`, with its scalar
arguments and, for an out-parameter, the value behind it before the call. -/
inductive DriverCall where
  | write_command (cmd : Nat)
  | read_command (cmd data_out : Nat)
  | reset_device
  | set_rst_pin (state : Nat)
  | read_temperature (temperature : ℚ) (raw_temp : Nat)
  | start_measurement (cmd : Nat)
  | stop_measurement

/-- The handle object `*ctx` and the HAL call history after one driver call.
None of these functions assigns to a field of `*ctx`, and the HAL is never given
the address of the handle, so the object stays as it is. -/
def DriverCall.run (hal : HAL) (call : DriverCall) (st : thermo26_t × List Event) :
    thermo26_t × List Event :=
  match call with
  | DriverCall.write_command cmd => (st.1, (thermo26_write_command hal st.1 cmd st.2).2)
  | DriverCall.read_command cmd data_out =>
    (st.1, (thermo26_read_command hal st.1 cmd data_out st.2).2.2)
  | DriverCall.reset_device => (st.1, thermo26_reset_device st.1 st.2)
  | DriverCall.set_rst_pin state => (st.1, thermo26_set_rst_pin st.1 state st.2)
  | DriverCall.read_temperature temperature raw_temp =>
    (st.1, (thermo26_read_temperature hal st.1 temperature raw_temp st.2).2.2)
  | DriverCall.start_measurement cmd => (st.1, (thermo26_start_measurement hal st.1 cmd st.2).2)
  | DriverCall.stop_measurement => (st.1, (thermo26_stop_measurement hal st.1 st.2).2)

/-- The handle and the history after a sequence of driver calls. -/
def run_calls (hal : HAL) (calls : List DriverCall) (st : thermo26_t × List Event) :
    thermo26_t × List Event :=
  calls.foldl (fun s call => call.run hal s) st

/-! ## Inverse of the register shift -/

/-- Undoes one round of the inner checksum loop: the lowest bit of the shifted
register tells whether the polynomial was added. -/
def crc_bit_body_inv (crc : Nat) : Nat :=
  if crc &&& 0x01 ≠ 0 then
    ((crc ^^^ THERMO26_POLYNOM) >>> 1) ||| 0x80
  else
    crc >>> 1

/-! ## Bit-level helper lemmas -/

theorem shiftLeft_xor_distrib (a b k : Nat) : (a ^^^ b) <<< k = (a <<< k) ^^^ (b <<< k) := by
  apply Nat.eq_of_testBit_eq
  intro i
  simp only [Nat.testBit_shiftLeft, Nat.testBit_xor]
  by_cases h : i ≥ k <;> simp [h]

theorem crc_bit_body_lt (c : Nat) : crc_bit_body c < 256 := by
  unfold crc_bit_body
  split <;> exact Nat.mod_lt _ (by decide)

set_option maxRecDepth 100000 in
theorem crc_bit_body_high : ∀ c, c < 256 → c.testBit 7 = true →
    crc_bit_body c = (c <<< 1) ^^^ crc8_generator := by
  decide

set_option maxRecDepth 100000 in
theorem crc_bit_body_low : ∀ c, c < 256 → c.testBit 7 = false →
    crc_bit_body c = c <<< 1 := by
  decide

theorem crc8_generator_log2 : crc8_generator.log2 = 8 := by
  simp [crc8_generator, Nat.log2]

/-- One step of the long division acts on the 8 coefficients below the one
being cancelled exactly as the loop body acts on the register. -/
theorem gf2_mod_step_eq_body (c low i : Nat) (hc : c < 256) (hlow : low < 2 ^ (8 + i)) :
    (if ((c <<< (i + 1)) ^^^ low).testBit (8 + i)
      then ((c <<< (i + 1)) ^^^ low) ^^^ (crc8_generator <<< i)
      else (c <<< (i + 1)) ^^^ low)
    = (crc_bit_body c <<< i) ^^^ low := by
  have hbit : ((c <<< (i + 1)) ^^^ low).testBit (8 + i) = c.testBit 7 := by
    rw [Nat.testBit_xor, Nat.testBit_lt_two_pow hlow, Nat.testBit_shiftLeft]
    have h1 : 8 + i ≥ i + 1 := by omega
    have h2 : 8 + i - (i + 1) = 7 := by omega
    simp [h1, h2]
  have hsh : c <<< (i + 1) = (c <<< 1) <<< i := by
    rw [Nat.add_comm, Nat.shiftLeft_add]
  rw [hbit]
  cases h7 : c.testBit 7
  · rw [crc_bit_body_low c hc h7, hsh]
    simp
  · rw [crc_bit_body_high c hc h7, hsh, shiftLeft_xor_distrib]
    simp only [if_true]
    rw [Nat.xor_assoc, Nat.xor_comm low, Nat.xor_assoc]

/-- Cancelling `n` coefficients of a dividend whose top byte is the register `c`
runs the loop body `n` times on `c`. -/
theorem gf2_mod_loop_eq_iterate (n : Nat) : ∀ (j c low : Nat), c < 256 → low < 2 ^ (8 + j) →
    gf2_mod_loop crc8_generator (j + n) ((c <<< (j + n)) ^^^ low)
      = gf2_mod_loop crc8_generator j (((crc_bit_body^[n] c) <<< j) ^^^ low) := by
  induction n with
  | zero => intro j c low _ _; rfl
  | succ n ih =>
    intro j c low hc hlow
    have hlow2 : low < 2 ^ (8 + (j + n)) :=
      lt_of_lt_of_le hlow (Nat.pow_le_pow_right (by decide) (by omega))
    have hstep := gf2_mod_step_eq_body c low (j + n) hc hlow2
    rw [← Nat.add_assoc j n 1]
    show gf2_mod_loop crc8_generator (j + n)
        (if ((c <<< (j + n + 1)) ^^^ low).testBit (crc8_generator.log2 + (j + n))
          then ((c <<< (j + n + 1)) ^^^ low) ^^^ (crc8_generator <<< (j + n))
          else (c <<< (j + n + 1)) ^^^ low) = _
    rw [crc8_generator_log2, hstep, ih j (crc_bit_body c) low (crc_bit_body_lt c) hlow,
      Function.iterate_succ_apply]

/-- Coefficients that are already zero need no cancelling. -/
theorem gf2_mod_loop_skip (g k : Nat) : ∀ (i m : Nat), m < 2 ^ (g.log2 + i) →
    gf2_mod_loop g (i + k) m = gf2_mod_loop g i m := by
  induction k with
  | zero => intro i m _; rfl
  | succ k ih =>
    intro i m hm
    have hm2 : m < 2 ^ (g.log2 + (i + k)) :=
      lt_of_lt_of_le hm (Nat.pow_le_pow_right (by decide) (by omega))
    rw [← Nat.add_assoc i k 1]
    show gf2_mod_loop g (i + k)
        (if m.testBit (g.log2 + (i + k)) then m ^^^ (g <<< (i + k)) else m) = _
    rw [Nat.testBit_lt_two_pow hm2]
    simpa using ih i m hm

/-- The inner loop is finished after 8 rounds: further fuel changes nothing. -/
theorem crc_bit_loop_fuel (k crc : Nat) : crc_bit_loop (k + 8) 0 crc = crc_bit_loop 8 0 crc := by
  have hdone : ∀ x, crc_bit_loop k 8 x = x := by
    intro x
    cases k <;> simp [crc_bit_loop]
  simp [crc_bit_loop, hdone]

/-- The outer loop is finished after 2 rounds: further fuel changes nothing. -/
theorem crc_byte_loop_fuel (crc_source : List Nat) (k crc : Nat) :
    crc_byte_loop crc_source (k + 2) 0 crc = crc_byte_loop crc_source 2 0 crc := by
  have hdone : ∀ x, crc_byte_loop crc_source k 2 x = x := by
    intro x
    cases k <;> simp [crc_byte_loop]
  simp [crc_byte_loop, hdone]

theorem crc_bit_loop_eq_iterate (crc : Nat) : crc_bit_loop 8 0 crc = crc_bit_body^[8] crc := by
  simp [crc_bit_loop]

theorem thermo26_calculate_crc_unfold (b0 b1 : Nat) (tl : List Nat) :
    thermo26_calculate_crc (b0 :: b1 :: tl)
      = crc_bit_body^[8] ((crc_bit_body^[8] ((0xFF ^^^ b0) % 256) ^^^ b1) % 256) := by
  simp [thermo26_calculate_crc, crc_byte_loop, crc_bit_loop_eq_iterate, THERMO26_INIT_VALUE]

theorem crc_bit_body_iterate_lt (n c : Nat) (hc : c < 256) : crc_bit_body^[n] c < 256 := by
  cases n with
  | zero => simpa using hc
  | succ n =>
    rw [Function.iterate_succ_apply']
    exact crc_bit_body_lt _

theorem thermo26_calculate_crc_eq_loop_bound (b0 b1 : Nat) :
    thermo26_calculate_crc [b0, b1] < 256 := by
  rw [thermo26_calculate_crc_unfold]
  exact crc_bit_body_iterate_lt 8 _ (Nat.mod_lt _ (by decide))

theorem lor_eq_xor_of_lt (a b k : Nat) (hb : b < 2 ^ k) : (a <<< k) ||| b = (a <<< k) ^^^ b := by
  apply Nat.eq_of_testBit_eq
  intro i
  simp only [Nat.testBit_or, Nat.testBit_xor, Nat.testBit_shiftLeft]
  by_cases h : i ≥ k
  · have hbi : b.testBit i = false :=
      Nat.testBit_lt_two_pow (lt_of_lt_of_le hb (Nat.pow_le_pow_right (by decide) h))
    simp [hbi]
  · simp [h]

theorem crc8_dividend_eq (b0 b1 : Nat) (h1 : b1 < 256) :
    crc8_dividend b0 b1 = ((0xFF ^^^ b0) <<< (8 + 8)) ^^^ (b1 <<< 8) := by
  unfold crc8_dividend
  rw [lor_eq_xor_of_lt b0 b1 8 h1, shiftLeft_xor_distrib, shiftLeft_xor_distrib,
    Nat.shiftLeft_add, shiftLeft_xor_distrib 255 b0 8, shiftLeft_xor_distrib]
  ac_rfl

theorem crc8_dividend_lt (b0 b1 : Nat) (h0 : b0 < 256) (h1 : b1 < 256) :
    crc8_dividend b0 b1 < 2 ^ 24 := by
  unfold crc8_dividend
  rw [Nat.shiftLeft_eq]
  have h : ((b0 <<< 8) ||| b1) ^^^ (0xFF <<< 8) < 2 ^ 16 := by
    apply Nat.xor_lt_two_pow
    · apply Nat.or_lt_two_pow
      · rw [Nat.shiftLeft_eq]; omega
      · omega
    · decide
  omega

/-- The division of a dividend of at most 24 coefficients by the generator
takes at most 16 cancelling steps. -/
theorem gf2_mod_eq_loop16 (m : Nat) (hm : m < 2 ^ 24) :
    gf2_mod m crc8_generator = gf2_mod_loop crc8_generator 16 m := by
  unfold gf2_mod
  rw [crc8_generator_log2]
  have hlog : m.log2 + 1 - 8 ≤ 16 := by
    by_cases h0 : m = 0
    · subst h0; simp [Nat.log2]
    · have := (Nat.log2_lt h0).2 hm
      omega
  have hlt : m < 2 ^ (crc8_generator.log2 + (m.log2 + 1 - 8)) := by
    rw [crc8_generator_log2]
    exact lt_of_lt_of_le Nat.lt_log2_self (Nat.pow_le_pow_right (by decide) (by omega))
  have hskip := gf2_mod_loop_skip crc8_generator (16 - (m.log2 + 1 - 8)) (m.log2 + 1 - 8) m hlt
  rw [← hskip]
  congr 1
  omega

theorem thermo26_calculate_crc_eq_loop (b0 b1 : Nat) (tl : List Nat) (h0 : b0 < 256)
    (h1 : b1 < 256) :
    thermo26_calculate_crc (b0 :: b1 :: tl)
      = gf2_mod_loop crc8_generator 16 (crc8_dividend b0 b1) := by
  have hc0 : 0xFF ^^^ b0 < 256 := Nat.xor_lt_two_pow (n := 8) (by decide) h0
  have hr0 : crc_bit_body^[8] (0xFF ^^^ b0) < 256 := crc_bit_body_iterate_lt 8 _ hc0
  have hc1 : crc_bit_body^[8] (0xFF ^^^ b0) ^^^ b1 < 256 := Nat.xor_lt_two_pow (n := 8) hr0 h1
  have hlow : b1 <<< 8 < 2 ^ (8 + 8) := by rw [Nat.shiftLeft_eq]; omega
  rw [thermo26_calculate_crc_unfold, Nat.mod_eq_of_lt hc0, Nat.mod_eq_of_lt hc1,
    crc8_dividend_eq b0 b1 h1]
  have hA := gf2_mod_loop_eq_iterate 8 8 (0xFF ^^^ b0) (b1 <<< 8) hc0 hlow
  have hB := gf2_mod_loop_eq_iterate 8 0 (crc_bit_body^[8] (0xFF ^^^ b0) ^^^ b1) 0 hc1
    (by decide)
  rw [show (16 : Nat) = 8 + 8 from rfl, hA, ← shiftLeft_xor_distrib]
  have hB2 : gf2_mod_loop crc8_generator 8 ((crc_bit_body^[8] (0xFF ^^^ b0) ^^^ b1) <<< 8)
      = crc_bit_body^[8] (crc_bit_body^[8] (0xFF ^^^ b0) ^^^ b1) := by
    simpa [gf2_mod_loop] using hB
  rw [hB2]

/-! ## The long division yields a remainder: dividend = quotient * divisor + result -/

theorem gf2_mul_loop_congr (a c b : Nat) : ∀ n, (∀ i, i < n → a.testBit i = c.testBit i) →
    gf2_mul_loop a b n = gf2_mul_loop c b n := by
  intro n
  induction n with
  | zero => intro _; rfl
  | succ n ih =>
    intro h
    simp only [gf2_mul_loop]
    rw [h n (Nat.lt_succ_self n), ih (fun i hi => h i (Nat.lt_succ_of_lt hi))]

theorem gf2_mul_loop_skip (a b n : Nat) (ha : a < 2 ^ n) : ∀ k,
    gf2_mul_loop a b (n + k) = gf2_mul_loop a b n := by
  intro k
  induction k with
  | zero => rfl
  | succ k ih =>
    have hbit : a.testBit (n + k) = false :=
      Nat.testBit_lt_two_pow (lt_of_lt_of_le ha (Nat.pow_le_pow_right (by decide) (by omega)))
    rw [← Nat.add_assoc]
    simp only [gf2_mul_loop]
    rw [hbit, ih]
    simp

theorem gf2_mul_eq_loop (a b n : Nat) (ha : a < 2 ^ n) : gf2_mul a b = gf2_mul_loop a b n := by
  unfold gf2_mul
  by_cases h : a.log2 + 1 ≤ n
  · have := gf2_mul_loop_skip a b (a.log2 + 1) Nat.lt_log2_self (n - (a.log2 + 1))
    rw [← this]
    congr 1
    omega
  · have := gf2_mul_loop_skip a b n ha (a.log2 + 1 - n)
    rw [← this]
    congr 1
    omega

/-- The long division subtracts a multiple of the divisor: some quotient `q`
of degree below `todo` satisfies `m = q * g + gf2_mod_loop g todo m`. -/
theorem gf2_mod_loop_quotient (g : Nat) : ∀ (todo m : Nat),
    ∃ q, q < 2 ^ todo ∧ m = gf2_mul_loop q g todo ^^^ gf2_mod_loop g todo m := by
  intro todo
  induction todo with
  | zero => intro m; exact ⟨0, by decide, by simp [gf2_mul_loop, gf2_mod_loop]⟩
  | succ todo ih =>
    intro m
    simp only [gf2_mod_loop, gf2_mul_loop]
    cases hb : m.testBit (g.log2 + todo)
    · obtain ⟨q, hq, hm⟩ := ih m
      refine ⟨q, lt_of_lt_of_le hq (Nat.pow_le_pow_right (by decide) (by omega)), ?_⟩
      rw [Nat.testBit_lt_two_pow hq]
      simpa using hm
    · obtain ⟨q, hq, hm⟩ := ih (m ^^^ (g <<< todo))
      have hqbit : q.testBit todo = false := Nat.testBit_lt_two_pow hq
      refine ⟨2 ^ todo ^^^ q, ?_, ?_⟩
      · exact Nat.xor_lt_two_pow (Nat.pow_lt_pow_right (by decide) (by omega))
          (lt_of_lt_of_le hq (Nat.pow_le_pow_right (by decide) (by omega)))
      · have htop : (2 ^ todo ^^^ q).testBit todo = true := by
          rw [Nat.testBit_xor, Nat.testBit_two_pow_self, hqbit]; rfl
        have hlow : gf2_mul_loop (2 ^ todo ^^^ q) g todo = gf2_mul_loop q g todo := by
          apply gf2_mul_loop_congr
          intro i hi
          rw [Nat.testBit_xor, Nat.testBit_two_pow_of_ne (by omega)]
          simp
        rw [htop, hlow]
        simp only [if_true]
        rw [Nat.xor_assoc, ← hm, Nat.xor_comm m, ← Nat.xor_assoc, Nat.xor_self, Nat.zero_xor]

/-! ## The remainder is unique -/

theorem gf2_mul_loop_xor (a c b : Nat) : ∀ n,
    gf2_mul_loop (a ^^^ c) b n = gf2_mul_loop a b n ^^^ gf2_mul_loop c b n := by
  intro n
  induction n with
  | zero => simp [gf2_mul_loop]
  | succ n ih =>
    simp only [gf2_mul_loop]
    have hif : (if (a ^^^ c).testBit n = true then b <<< n else 0)
        = (if a.testBit n = true then b <<< n else 0)
          ^^^ (if c.testBit n = true then b <<< n else 0) := by
      rw [Nat.testBit_xor]
      cases a.testBit n <;> cases c.testBit n <;> simp
    rw [ih, hif]
    ac_rfl

/-- The product is additive in its first factor. -/
theorem gf2_mul_xor (a c b : Nat) : gf2_mul (a ^^^ c) b = gf2_mul a b ^^^ gf2_mul c b := by
  have ha : a < 2 ^ (a + c) :=
    lt_of_lt_of_le (Nat.lt_two_pow a) (Nat.pow_le_pow_right (by decide) (by omega))
  have hc : c < 2 ^ (a + c) :=
    lt_of_lt_of_le (Nat.lt_two_pow c) (Nat.pow_le_pow_right (by decide) (by omega))
  rw [gf2_mul_eq_loop a b (a + c) ha, gf2_mul_eq_loop c b (a + c) hc,
    gf2_mul_eq_loop (a ^^^ c) b (a + c) (Nat.xor_lt_two_pow ha hc), gf2_mul_loop_xor]

theorem gf2_mul_loop_generator_lt (q : Nat) : ∀ n, gf2_mul_loop q crc8_generator n < 2 ^ (n + 8) := by
  intro n
  induction n with
  | zero => simp [gf2_mul_loop]
  | succ n ih =>
    simp only [gf2_mul_loop]
    apply Nat.xor_lt_two_pow
    · split
      · rw [Nat.shiftLeft_eq, show n + 1 + 8 = 9 + n by omega, Nat.pow_add]
        exact Nat.mul_lt_mul_of_pos_right (by decide) (Nat.two_pow_pos n)
      · exact Nat.two_pow_pos _
    · exact lt_of_lt_of_le ih (Nat.pow_le_pow_right (by decide) (by omega))

theorem testBit_log2_self (q : Nat) (hq : q ≠ 0) : q.testBit q.log2 = true := by
  have h1 := Nat.log2_self_le hq
  have h2 : q < 2 ^ (q.log2 + 1) := Nat.lt_log2_self
  rw [Nat.pow_succ] at h2
  have hlow : q - 2 ^ q.log2 < 2 ^ q.log2 := by omega
  have key : (2 ^ q.log2 + (q - 2 ^ q.log2)).testBit q.log2 = true := by
    rw [Nat.testBit_two_pow_add_eq, Nat.testBit_lt_two_pow hlow]
    rfl
  have hq2 : 2 ^ q.log2 + (q - 2 ^ q.log2) = q := by omega
  rw [hq2] at key
  exact key

/-- A non-zero multiple of the generator has degree at least 8. -/
theorem gf2_mul_generator_ge (q : Nat) (hq : q ≠ 0) : 2 ^ 8 ≤ gf2_mul q crc8_generator := by
  have hbit : (gf2_mul q crc8_generator).testBit (q.log2 + 8) = true := by
    unfold gf2_mul
    simp only [gf2_mul_loop, testBit_log2_self q hq, if_true]
    rw [Nat.testBit_xor, Nat.testBit_lt_two_pow (gf2_mul_loop_generator_lt q q.log2),
      Nat.testBit_shiftLeft]
    have h1 : q.log2 + 8 ≥ q.log2 := by omega
    have h2 : q.log2 + 8 - q.log2 = 8 := by omega
    simp only [h1, h2, decide_True, Bool.true_and, Bool.xor_false]
    decide
  exact le_trans (Nat.pow_le_pow_right (by decide) (by omega)) (Nat.testBit_implies_ge hbit)

theorem gf2_mul_zero_left (b : Nat) : gf2_mul 0 b = 0 := by
  simp [gf2_mul, gf2_mul_loop, Nat.log2]

/-- Two polynomials of degree below 8 that differ from the same dividend by
multiples of the generator are equal. -/
theorem gf2_remainder_unique (m q1 r1 q2 r2 : Nat) (h1 : r1 < 2 ^ 8) (h2 : r2 < 2 ^ 8)
    (e1 : m = gf2_mul q1 crc8_generator ^^^ r1) (e2 : m = gf2_mul q2 crc8_generator ^^^ r2) :
    r1 = r2 := by
  have hx : gf2_mul (q1 ^^^ q2) crc8_generator = r1 ^^^ r2 := by
    rw [gf2_mul_xor]
    have e3 : gf2_mul q1 crc8_generator = m ^^^ r1 := by
      rw [e1, Nat.xor_cancel_right]
    have e4 : gf2_mul q2 crc8_generator = m ^^^ r2 := by
      rw [e2, Nat.xor_cancel_right]
    rw [e3, e4]
    calc (m ^^^ r1) ^^^ (m ^^^ r2) = (m ^^^ m) ^^^ (r1 ^^^ r2) := by ac_rfl
      _ = r1 ^^^ r2 := by rw [Nat.xor_self, Nat.zero_xor]
  have hlt : r1 ^^^ r2 < 2 ^ 8 := Nat.xor_lt_two_pow h1 h2
  by_cases hq : q1 ^^^ q2 = 0
  · rw [hq, gf2_mul_zero_left] at hx
    exact Nat.xor_eq_zero.mp hx.symm
  · have := gf2_mul_generator_ge (q1 ^^^ q2) hq
    omega

/-! ## Helper lemmas for the driver operations -/

theorem and_0xFF (a : Nat) : a &&& 0xFF = a % 256 :=
  Nat.and_pow_two_sub_one_eq_mod a 8

theorem shiftRight_8 (a : Nat) : a >>> 8 = a / 256 :=
  Nat.shiftRight_eq_div_pow a 8

theorem shiftLeft_8_lor (a b : Nat) (hb : b < 256) : (a <<< 8) ||| b = a * 256 + b := by
  rw [Nat.shiftLeft_eq, Nat.mul_comm]
  exact (Nat.mul_add_lt_is_or (i := 8) hb a).symm

theorem thermo26_cmd_bytes_eq (cmd : Nat) (hcmd : cmd < 65536) :
    thermo26_cmd_bytes cmd = [cmd >>> 8, cmd &&& 0xFF] := by
  simp only [thermo26_cmd_bytes, and_0xFF, shiftRight_8]
  rw [Nat.mod_mod, Nat.mod_mod, Nat.mod_eq_of_lt (by omega : cmd / 256 < 256)]

theorem thermo26_data_word_eq (b0 b1 : Nat) (tl : List Nat) (h0 : b0 < 256) (h1 : b1 < 256) :
    thermo26_data_word (b0 :: b1 :: tl) = (b0 <<< 8) ||| b1 := by
  simp only [thermo26_data_word, List.getD_cons_zero, List.getD_cons_succ]
  rw [Nat.mod_eq_of_lt (by omega : b0 < 65536), shiftLeft_8_lor b0 b1 h1]
  exact Nat.mod_eq_of_lt (by omega)

theorem lor_eq_HAL_OK (a b : HAL_StatusTypeDef) :
    a.lor b = HAL_OK ↔ a = HAL_OK ∧ b = HAL_OK := by
  cases a <;> cases b <;> decide

theorem thermo26_calculate_crc_tail_irrelevant (b0 b1 : Nat) (tl : List Nat) :
    thermo26_calculate_crc (b0 :: b1 :: tl) = thermo26_calculate_crc [b0, b1] := by
  rw [thermo26_calculate_crc_unfold, thermo26_calculate_crc_unfold]

/-- The buffer `data_buf` after the receive, when the HAL delivered three bytes. -/
theorem receive_three (hal : HAL) (hi2c addr : Nat) (trace : List Event) (b0 b1 b2 : Nat)
    (h0 : b0 < 256) (h1 : b1 < 256) (h2 : b2 < 256)
    (hrx : (hal.i2c_receive (trace ++ [Event.receive hi2c addr 3 100])).2 = [b0, b1, b2]) :
    (HAL_I2C_Master_Receive hal hi2c addr [0, 0, 0] 3 100 trace).2.1 = [b0, b1, b2] := by
  simp [HAL_I2C_Master_Receive, hrx, List.range_succ, Nat.mod_eq_of_lt h0, Nat.mod_eq_of_lt h1,
    Nat.mod_eq_of_lt h2]

/-- What `thermo26_read_command` does, in terms of the two bus answers. -/
theorem thermo26_read_command_unfold (hal : HAL) (ctx : thermo26_t) (cmd data_out : Nat)
    (trace : List Event) :
    thermo26_read_command hal ctx cmd data_out trace =
      if hal.i2c_transmit
            (trace ++ [Event.transmit ctx.i2c ctx.slave_address (thermo26_cmd_bytes cmd) 100])
            = HAL_OK ∧
          (hal.i2c_receive
            (trace ++ [Event.transmit ctx.i2c ctx.slave_address (thermo26_cmd_bytes cmd) 100]
              ++ [Event.receive ctx.i2c ctx.slave_address 3 100])).1 = HAL_OK ∧
          (HAL_I2C_Master_Receive hal ctx.i2c ctx.slave_address [0, 0, 0] 3 100
            (trace ++ [Event.transmit ctx.i2c ctx.slave_address (thermo26_cmd_bytes cmd) 100])
            ).2.1.getD 2 0 =
            thermo26_calculate_crc (HAL_I2C_Master_Receive hal ctx.i2c ctx.slave_address
              [0, 0, 0] 3 100
              (trace ++ [Event.transmit ctx.i2c ctx.slave_address (thermo26_cmd_bytes cmd) 100])
              ).2.1
      then (HAL_OK, thermo26_data_word (HAL_I2C_Master_Receive hal ctx.i2c ctx.slave_address
              [0, 0, 0] 3 100
              (trace ++ [Event.transmit ctx.i2c ctx.slave_address (thermo26_cmd_bytes cmd) 100])
              ).2.1,
            trace ++ [Event.transmit ctx.i2c ctx.slave_address (thermo26_cmd_bytes cmd) 100]
              ++ [Event.receive ctx.i2c ctx.slave_address 3 100])
      else (HAL_ERROR, data_out,
            trace ++ [Event.transmit ctx.i2c ctx.slave_address (thermo26_cmd_bytes cmd) 100]
              ++ [Event.receive ctx.i2c ctx.slave_address 3 100]) := by
  simp only [thermo26_read_command, thermo26_write_command, HAL_I2C_Master_Transmit,
    thermo26_cmd_bytes, List.take, eq_comm (a := HAL_OK), lor_eq_HAL_OK, and_assoc]
  rfl

/-- What `thermo26_start_measurement` does, in terms of the bus answer. -/
theorem thermo26_start_measurement_unfold (hal : HAL) (ctx : thermo26_t) (cmd : Nat)
    (trace : List Event) :
    thermo26_start_measurement hal ctx cmd trace =
      (hal.i2c_transmit
          (trace ++ [Event.transmit ctx.i2c ctx.slave_address (thermo26_cmd_bytes cmd) 100]),
        trace ++ [Event.transmit ctx.i2c ctx.slave_address (thermo26_cmd_bytes cmd) 100,
          Event.delay 20]) := by
  simp [thermo26_start_measurement, thermo26_write_command, HAL_I2C_Master_Transmit, HAL_Delay,
    thermo26_cmd_bytes]

theorem periodic_cmd_bytes :
    thermo26_cmd_bytes THERMO26_CMD_PERIODIC_1_MPS_REP_HIGH = [0x21, 0x30] := by
  decide

theorem fetch_cmd_bytes : thermo26_cmd_bytes THERMO26_CMD_FETCH_DATA = [0xE0, 0x00] := by
  decide

/-- What `thermo26_read_temperature` does, in terms of its two steps. -/
theorem thermo26_read_temperature_unfold (hal : HAL) (ctx : thermo26_t) (temperature : ℚ)
    (raw_temp : Nat) (trace : List Event) :
    thermo26_read_temperature hal ctx temperature raw_temp trace =
      if (thermo26_start_measurement hal ctx THERMO26_CMD_PERIODIC_1_MPS_REP_HIGH trace).1
            = HAL_OK ∧
          (thermo26_read_command hal ctx THERMO26_CMD_FETCH_DATA raw_temp
            (thermo26_start_measurement hal ctx THERMO26_CMD_PERIODIC_1_MPS_REP_HIGH trace).2).1
            = HAL_OK
      then (HAL_OK,
        thermo26_raw_to_celsius (thermo26_read_command hal ctx THERMO26_CMD_FETCH_DATA raw_temp
          (thermo26_start_measurement hal ctx THERMO26_CMD_PERIODIC_1_MPS_REP_HIGH trace).2).2.1,
        (thermo26_read_command hal ctx THERMO26_CMD_FETCH_DATA raw_temp
          (thermo26_start_measurement hal ctx THERMO26_CMD_PERIODIC_1_MPS_REP_HIGH trace).2).2.2)
      else (HAL_ERROR, temperature,
        (thermo26_read_command hal ctx THERMO26_CMD_FETCH_DATA raw_temp
          (thermo26_start_measurement hal ctx THERMO26_CMD_PERIODIC_1_MPS_REP_HIGH trace).2).2.2)
      := by
  simp only [thermo26_read_temperature, lor_eq_HAL_OK]

/-- Acceptance of a frame with a matching checksum, stated on the bytes that the
code builds from `cmd`. -/
theorem thermo26_read_command_ok (hal : HAL) (ctx : thermo26_t) (cmd data_out : Nat)
    (trace : List Event) (b0 b1 b2 : Nat) (h0 : b0 < 256) (h1 : b1 < 256) (h2 : b2 < 256)
    (htx : hal.i2c_transmit
      (trace ++ [Event.transmit ctx.i2c ctx.slave_address (thermo26_cmd_bytes cmd) 100])
      = HAL_OK)
    (hrx : hal.i2c_receive
      (trace ++ [Event.transmit ctx.i2c ctx.slave_address (thermo26_cmd_bytes cmd) 100]
        ++ [Event.receive ctx.i2c ctx.slave_address 3 100])
      = (HAL_OK, [b0, b1, b2])) :
    b2 = thermo26_calculate_crc [b0, b1] →
      (thermo26_read_command hal ctx cmd data_out trace).1 = HAL_OK ∧
      (thermo26_read_command hal ctx cmd data_out trace).2.1 = (b0 <<< 8) ||| b1 := by
  have hbuf := receive_three hal ctx.i2c ctx.slave_address
    (trace ++ [Event.transmit ctx.i2c ctx.slave_address (thermo26_cmd_bytes cmd) 100])
    b0 b1 b2 h0 h1 h2 (by rw [hrx])
  intro hcrc
  rw [thermo26_read_command_unfold, hbuf, hrx, htx,
    thermo26_calculate_crc_tail_irrelevant, ← hcrc, thermo26_data_word_eq b0 b1 _ h0 h1]
  simp

/-- Rejection after a transport failure, stated on the bytes that the code
builds from `cmd`. -/
theorem thermo26_read_command_transport_failure_gen (hal : HAL) (ctx : thermo26_t)
    (cmd data_out : Nat) (trace : List Event)
    (hfail : hal.i2c_transmit
        (trace ++ [Event.transmit ctx.i2c ctx.slave_address (thermo26_cmd_bytes cmd) 100])
        ≠ HAL_OK ∨
      (hal.i2c_receive
        (trace ++ [Event.transmit ctx.i2c ctx.slave_address (thermo26_cmd_bytes cmd) 100]
          ++ [Event.receive ctx.i2c ctx.slave_address 3 100])).1 ≠ HAL_OK) :
    (thermo26_read_command hal ctx cmd data_out trace).1 = HAL_ERROR ∧
      (thermo26_read_command hal ctx cmd data_out trace).2.1 = data_out := by
  rw [thermo26_read_command_unfold]
  rcases hfail with h | h
  · rw [if_neg (fun hc => h hc.1)]
    exact ⟨rfl, rfl⟩
  · rw [if_neg (fun hc => h hc.2.1)]
    exact ⟨rfl, rfl⟩

/-- Rejection of a frame whose checksum does not match, stated on the bytes that
the code builds from `cmd`. -/
theorem thermo26_read_command_mismatch_gen (hal : HAL) (ctx : thermo26_t)
    (cmd data_out : Nat) (trace : List Event) (b0 b1 b2 : Nat)
    (h0 : b0 < 256) (h1 : b1 < 256) (h2 : b2 < 256)
    (hrx : (hal.i2c_receive
      (trace ++ [Event.transmit ctx.i2c ctx.slave_address (thermo26_cmd_bytes cmd) 100]
        ++ [Event.receive ctx.i2c ctx.slave_address 3 100])).2 = [b0, b1, b2])
    (hcrc : b2 ≠ thermo26_calculate_crc [b0, b1]) :
    (thermo26_read_command hal ctx cmd data_out trace).1 = HAL_ERROR ∧
      (thermo26_read_command hal ctx cmd data_out trace).2.1 = data_out := by
  have hbuf := receive_three hal ctx.i2c ctx.slave_address
    (trace ++ [Event.transmit ctx.i2c ctx.slave_address (thermo26_cmd_bytes cmd) 100])
    b0 b1 b2 h0 h1 h2 hrx
  rw [thermo26_read_command_unfold, hbuf, thermo26_calculate_crc_tail_irrelevant]
  simp [hcrc]

/-- What `thermo26_stop_measurement` does, in terms of the bus answer. -/
theorem thermo26_stop_measurement_unfold (hal : HAL) (ctx : thermo26_t) (trace : List Event) :
    thermo26_stop_measurement hal ctx trace =
      (hal.i2c_transmit
          (trace ++ [Event.transmit ctx.i2c ctx.slave_address
            (thermo26_cmd_bytes THERMO26_CMD_BREAK) 100]),
        trace ++ [Event.transmit ctx.i2c ctx.slave_address
            (thermo26_cmd_bytes THERMO26_CMD_BREAK) 100,
          Event.delay 1]) := by
  simp [thermo26_stop_measurement, thermo26_write_command, HAL_I2C_Master_Transmit, HAL_Delay,
    thermo26_cmd_bytes]

theorem break_cmd_bytes : thermo26_cmd_bytes THERMO26_CMD_BREAK = [0x30, 0x93] := by
  decide

/-- What `thermo26_reset_device` appends to the history. -/
theorem thermo26_reset_device_unfold (ctx : thermo26_t) (trace : List Event) :
    thermo26_reset_device ctx trace =
      trace ++ [Event.gpio_write ctx.rst_port ctx.rst_pin GPIO_PinState.GPIO_PIN_RESET,
        Event.delay 1,
        Event.gpio_write ctx.rst_port ctx.rst_pin GPIO_PinState.GPIO_PIN_SET,
        Event.delay 100] := by
  simp [thermo26_reset_device, HAL_GPIO_WritePin, HAL_Delay]

/-- The level of a pin is decided by the later part of the history whenever
that part writes the pin. -/
theorem pin_level_append (GPIOx GPIO_Pin : Nat) (later : List Event) (level : GPIO_PinState)
    (h : pin_level GPIOx GPIO_Pin later = some level) :
    ∀ earlier : List Event, pin_level GPIOx GPIO_Pin (earlier ++ later) = some level := by
  intro earlier
  induction earlier with
  | nil => simpa using h
  | cons e rest ih =>
    cases e <;> simp [pin_level, ih]

theorem thermo26_data_word_lt (data_buf : List Nat) : thermo26_data_word data_buf < 65536 := by
  unfold thermo26_data_word
  exact Nat.mod_lt _ (by decide)

/-- A word stored by a successful `thermo26_read_command` is a 16-bit value. -/
theorem thermo26_read_command_word_lt (hal : HAL) (ctx : thermo26_t) (cmd data_out : Nat)
    (trace : List Event) (hok : (thermo26_read_command hal ctx cmd data_out trace).1 = HAL_OK) :
    (thermo26_read_command hal ctx cmd data_out trace).2.1 < 65536 := by
  rw [thermo26_read_command_unfold] at hok ⊢
  split at hok
  · rename_i hc
    rw [if_pos hc]
    exact thermo26_data_word_lt _
  · exact HAL_StatusTypeDef.noConfusion hok

theorem thermo26_raw_to_celsius_range (raw : Nat) (hraw : raw < 65536) :
    -45 ≤ thermo26_raw_to_celsius raw ∧ thermo26_raw_to_celsius raw ≤ 130 := by
  have hle : (raw : ℚ) ≤ 65535 := by exact_mod_cast Nat.le_of_lt_succ hraw
  have hge : (0 : ℚ) ≤ (raw : ℚ) := by exact_mod_cast Nat.zero_le raw
  simp only [thermo26_raw_to_celsius, THERMO26_ABS_MIN_TEMP, THERMO26_ABS_MAX_TEMP,
    THERMO26_DATA_RESOLUTION]
  constructor
  · have h : (0 : ℚ) ≤ (130 - -45) * (raw : ℚ) / 65535 := by positivity
    linarith
  · have h : (130 - -45) * (raw : ℚ) / 65535 ≤ 175 := by
      rw [div_le_iff₀ (by norm_num)]
      linarith
    linarith

/-- The history after `thermo26_read_command`, whatever the bus answered. -/
theorem thermo26_read_command_trace (hal : HAL) (ctx : thermo26_t) (cmd data_out : Nat)
    (trace : List Event) :
    (thermo26_read_command hal ctx cmd data_out trace).2.2 =
      trace ++ [Event.transmit ctx.i2c ctx.slave_address (thermo26_cmd_bytes cmd) 100,
        Event.receive ctx.i2c ctx.slave_address 3 100] := by
  rw [thermo26_read_command_unfold]
  split <;> simp

/-- The history after `thermo26_read_temperature`, whatever the bus answered. -/
theorem thermo26_read_temperature_trace (hal : HAL) (ctx : thermo26_t) (temperature : ℚ)
    (raw_temp : Nat) (trace : List Event) :
    (thermo26_read_temperature hal ctx temperature raw_temp trace).2.2 =
      trace ++ [Event.transmit ctx.i2c ctx.slave_address [0x21, 0x30] 100,
        Event.delay 20,
        Event.transmit ctx.i2c ctx.slave_address [0xE0, 0x00] 100,
        Event.receive ctx.i2c ctx.slave_address 3 100] := by
  have h : (thermo26_read_temperature hal ctx temperature raw_temp trace).2.2 =
      (thermo26_read_command hal ctx THERMO26_CMD_FETCH_DATA raw_temp
        (thermo26_start_measurement hal ctx THERMO26_CMD_PERIODIC_1_MPS_REP_HIGH
          trace).2).2.2 := by
    rw [thermo26_read_temperature_unfold]
    split <;> rfl
  rw [h, thermo26_read_command_trace, thermo26_start_measurement_unfold, periodic_cmd_bytes,
    fetch_cmd_bytes]
  simp

/-- What `thermo26_set_rst_pin` appends to the history. -/
theorem thermo26_set_rst_pin_unfold (ctx : thermo26_t) (state : Nat) (trace : List Event) :
    thermo26_set_rst_pin ctx state trace =
      trace ++ [Event.gpio_write ctx.rst_port ctx.rst_pin GPIO_PinState.GPIO_PIN_RESET] := by
  simp [thermo26_set_rst_pin, HAL_GPIO_WritePin]

/-- What `thermo26_write_command` appends to the history. -/
theorem thermo26_write_command_trace (hal : HAL) (ctx : thermo26_t) (cmd : Nat)
    (trace : List Event) :
    (thermo26_write_command hal ctx cmd trace).2 =
      trace ++ [Event.transmit ctx.i2c ctx.slave_address (thermo26_cmd_bytes cmd) 100] := by
  simp [thermo26_write_command, HAL_I2C_Master_Transmit, thermo26_cmd_bytes]

/-- One driver call keeps the handle and extends the history by events whose
bus transfers all go to the stored slave address. -/
theorem DriverCall.run_frame (hal : HAL) (call : DriverCall) (ctx : thermo26_t)
    (trace : List Event) :
    ∃ new : List Event, call.run hal (ctx, trace) = (ctx, trace ++ new) ∧
      ∀ e ∈ new, ∀ a, e.bus_address = some a → a = ctx.slave_address := by
  cases call with
  | write_command cmd =>
    refine ⟨_, by simp only [DriverCall.run]; rw [thermo26_write_command_trace], ?_⟩
    intro e he a ha
    simp only [List.mem_singleton] at he
    subst he
    simpa [Event.bus_address] using ha.symm
  | read_command cmd data_out =>
    refine ⟨_, by simp only [DriverCall.run]; rw [thermo26_read_command_trace], ?_⟩
    intro e he a ha
    simp only [List.mem_cons, List.mem_singleton, List.not_mem_nil, or_false] at he
    rcases he with h | h <;> subst h <;> simpa [Event.bus_address] using ha.symm
  | reset_device =>
    refine ⟨_, by simp only [DriverCall.run]; rw [thermo26_reset_device_unfold], ?_⟩
    intro e he a ha
    simp only [List.mem_cons, List.mem_singleton, List.not_mem_nil, or_false] at he
    rcases he with h | h | h | h <;> subst h <;> simp [Event.bus_address] at ha
  | set_rst_pin state =>
    refine ⟨_, by simp only [DriverCall.run]; rw [thermo26_set_rst_pin_unfold], ?_⟩
    intro e he a ha
    simp only [List.mem_singleton] at he
    subst he
    simp [Event.bus_address] at ha
  | read_temperature temperature raw_temp =>
    refine ⟨_, by simp only [DriverCall.run]; rw [thermo26_read_temperature_trace], ?_⟩
    intro e he a ha
    simp only [List.mem_cons, List.mem_singleton, List.not_mem_nil, or_false] at he
    rcases he with h | h | h | h <;> subst h <;> simp [Event.bus_address] at ha <;>
      exact ha.symm
  | start_measurement cmd =>
    refine ⟨_, by simp only [DriverCall.run]; rw [thermo26_start_measurement_unfold], ?_⟩
    intro e he a ha
    simp only [List.mem_cons, List.mem_singleton, List.not_mem_nil, or_false] at he
    rcases he with h | h
    · subst h
      simpa [Event.bus_address] using ha.symm
    · subst h
      simp [Event.bus_address] at ha
  | stop_measurement =>
    refine ⟨_, by simp only [DriverCall.run]; rw [thermo26_stop_measurement_unfold], ?_⟩
    intro e he a ha
    simp only [List.mem_cons, List.mem_singleton, List.not_mem_nil, or_false] at he
    rcases he with h | h
    · subst h
      simpa [Event.bus_address] using ha.symm
    · subst h
      simp [Event.bus_address] at ha

/-- A sequence of driver calls keeps the handle and extends the history by
events whose bus transfers all go to the stored slave address. -/
theorem run_calls_frame (hal : HAL) (calls : List DriverCall) :
    ∀ (ctx : thermo26_t) (trace : List Event),
      ∃ new : List Event, run_calls hal calls (ctx, trace) = (ctx, trace ++ new) ∧
        ∀ e ∈ new, ∀ a, e.bus_address = some a → a = ctx.slave_address := by
  induction calls with
  | nil =>
    intro ctx trace
    exact ⟨[], by simp [run_calls], by simp⟩
  | cons call rest ih =>
    intro ctx trace
    obtain ⟨n1, h1, a1⟩ := DriverCall.run_frame hal call ctx trace
    obtain ⟨n2, h2, a2⟩ := ih ctx (trace ++ n1)
    refine ⟨n1 ++ n2, ?_, ?_⟩
    · have hstep : run_calls hal (call :: rest) (ctx, trace)
          = run_calls hal rest (call.run hal (ctx, trace)) := by
        simp [run_calls]
      rw [hstep, h1, h2, List.append_assoc]
    · intro e he a ha
      rcases List.mem_append.mp he with h | h
      · exact a1 e h a ha
      · exact a2 e h a ha

/-! ## The register shift is a bijection on bytes -/

set_option maxRecDepth 100000 in
theorem crc_bit_body_inv_body : ∀ c, c < 256 → crc_bit_body_inv (crc_bit_body c) = c := by
  decide

theorem crc_bit_body_injective (a b : Nat) (ha : a < 256) (hb : b < 256)
    (h : crc_bit_body a = crc_bit_body b) : a = b := by
  rw [← crc_bit_body_inv_body a ha, ← crc_bit_body_inv_body b hb, h]

theorem crc_bit_body_iterate_injective (n : Nat) : ∀ (a b : Nat), a < 256 → b < 256 →
    crc_bit_body^[n] a = crc_bit_body^[n] b → a = b := by
  induction n with
  | zero => intro a b _ _ h; simpa using h
  | succ n ih =>
    intro a b ha hb h
    rw [Function.iterate_succ_apply, Function.iterate_succ_apply] at h
    exact crc_bit_body_injective a b ha hb
      (ih _ _ (crc_bit_body_lt a) (crc_bit_body_lt b) h)

/-- For a fixed first byte the checksum is injective in the second byte. -/
theorem thermo26_calculate_crc_injective_second (b0 b1 c1 : Nat) (h1 : b1 < 256)
    (hc1 : c1 < 256) (h : thermo26_calculate_crc [b0, c1] = thermo26_calculate_crc [b0, b1]) :
    c1 = b1 := by
  rw [thermo26_calculate_crc_unfold, thermo26_calculate_crc_unfold] at h
  have hr : crc_bit_body^[8] ((0xFF ^^^ b0) % 256) < 256 :=
    crc_bit_body_iterate_lt 8 _ (Nat.mod_lt _ (by decide))
  have hx1 : crc_bit_body^[8] ((0xFF ^^^ b0) % 256) ^^^ c1 < 256 :=
    Nat.xor_lt_two_pow (n := 8) hr hc1
  have hx2 : crc_bit_body^[8] ((0xFF ^^^ b0) % 256) ^^^ b1 < 256 :=
    Nat.xor_lt_two_pow (n := 8) hr h1
  rw [Nat.mod_eq_of_lt hx1, Nat.mod_eq_of_lt hx2] at h
  exact Nat.xor_right_inj.mp (crc_bit_body_iterate_injective 8 _ _ hx1 hx2 h)

/-- For a fixed second byte the checksum is injective in the first byte. -/
theorem thermo26_calculate_crc_injective_first (b0 b1 c0 : Nat) (h0 : b0 < 256)
    (h1 : b1 < 256) (hc0 : c0 < 256)
    (h : thermo26_calculate_crc [c0, b1] = thermo26_calculate_crc [b0, b1]) :
    c0 = b0 := by
  rw [thermo26_calculate_crc_unfold, thermo26_calculate_crc_unfold] at h
  have hxc : 0xFF ^^^ c0 < 256 := Nat.xor_lt_two_pow (n := 8) (by decide) hc0
  have hxb : 0xFF ^^^ b0 < 256 := Nat.xor_lt_two_pow (n := 8) (by decide) h0
  rw [Nat.mod_eq_of_lt hxc, Nat.mod_eq_of_lt hxb] at h
  have hrc : crc_bit_body^[8] (0xFF ^^^ c0) < 256 := crc_bit_body_iterate_lt 8 _ hxc
  have hrb : crc_bit_body^[8] (0xFF ^^^ b0) < 256 := crc_bit_body_iterate_lt 8 _ hxb
  have hm1 : crc_bit_body^[8] (0xFF ^^^ c0) ^^^ b1 < 256 := Nat.xor_lt_two_pow (n := 8) hrc h1
  have hm2 : crc_bit_body^[8] (0xFF ^^^ b0) ^^^ b1 < 256 := Nat.xor_lt_two_pow (n := 8) hrb h1
  rw [Nat.mod_eq_of_lt hm1, Nat.mod_eq_of_lt hm2] at h
  have hmod := crc_bit_body_iterate_injective 8 _ _ hm1 hm2 h
  have hreg := crc_bit_body_iterate_injective 8 _ _ hxc hxb (Nat.xor_left_inj.mp hmod)
  exact Nat.xor_right_inj.mp hreg

/-! ## Checksum: golden vector -/

/-- C1: `thermo26_calculate_crc` applied to the two bytes 0xBE, 0xEF returns 0x92. -/
theorem thermo26_calculate_crc_golden : thermo26_calculate_crc [0xBE, 0xEF] = 0x92 := by
  decide

/-! ## Checksum: agreement with the CRC-8 reference -/

/-- C2: for every pair of bytes `(b0, b1)`, `thermo26_calculate_crc` returns the
CRC-8 with polynomial 0x31 (x^8+x^5+x^4+1), initial value 0xFF, no reflection
and no final XOR: it equals the reference definition, the remainder of the GF(2)
polynomial division of the message `b0‖b1`, with 0xFF added into its first byte
and shifted up by 8 bits, by x^8+x^5+x^4+1.  It is that remainder indeed: its
degree is below 8, it differs from the dividend by a multiple of the generator
polynomial, and it is the only polynomial with these two properties. -/
theorem thermo26_calculate_crc_eq_reference (b0 b1 : Nat) (h0 : b0 < 256) (h1 : b1 < 256) :
    thermo26_calculate_crc [b0, b1] = crc8_reference b0 b1 ∧
      thermo26_calculate_crc [b0, b1] < 2 ^ 8 ∧
      (∃ q, crc8_dividend b0 b1
        = gf2_mul q crc8_generator ^^^ thermo26_calculate_crc [b0, b1]) ∧
      (∀ q r, r < 2 ^ 8 → crc8_dividend b0 b1 = gf2_mul q crc8_generator ^^^ r →
        r = thermo26_calculate_crc [b0, b1]) := by
  have hlt : thermo26_calculate_crc [b0, b1] < 2 ^ 8 := thermo26_calculate_crc_eq_loop_bound b0 b1
  have hex : ∃ q, crc8_dividend b0 b1
      = gf2_mul q crc8_generator ^^^ thermo26_calculate_crc [b0, b1] := by
    obtain ⟨q, hq, hm⟩ := gf2_mod_loop_quotient crc8_generator 16 (crc8_dividend b0 b1)
    refine ⟨q, ?_⟩
    rw [thermo26_calculate_crc_eq_loop b0 b1 [] h0 h1, gf2_mul_eq_loop q crc8_generator 16 hq]
    exact hm
  refine ⟨?_, hlt, hex, ?_⟩
  · rw [crc8_reference, gf2_mod_eq_loop16 _ (crc8_dividend_lt b0 b1 h0 h1)]
    exact thermo26_calculate_crc_eq_loop b0 b1 [] h0 h1
  · intro q r hr hqr
    obtain ⟨q0, hq0⟩ := hex
    exact gf2_remainder_unique (crc8_dividend b0 b1) q r q0 _ hr hlt hqr hq0

/-- Witness for C2 at the bytes 0xBE, 0xEF. -/
theorem thermo26_calculate_crc_eq_reference_witness :
    0xBE < 256 ∧ 0xEF < 256 ∧
      (thermo26_calculate_crc [0xBE, 0xEF] = crc8_reference 0xBE 0xEF ∧
        thermo26_calculate_crc [0xBE, 0xEF] < 2 ^ 8 ∧
        (∃ q, crc8_dividend 0xBE 0xEF
          = gf2_mul q crc8_generator ^^^ thermo26_calculate_crc [0xBE, 0xEF]) ∧
        (∀ q r, r < 2 ^ 8 → crc8_dividend 0xBE 0xEF = gf2_mul q crc8_generator ^^^ r →
          r = thermo26_calculate_crc [0xBE, 0xEF])) :=
  ⟨by decide, by decide, thermo26_calculate_crc_eq_reference 0xBE 0xEF (by decide) (by decide)⟩

/-! ## Command write -/

/-- C3: for every 16-bit `cmd`, `thermo26_write_command` performs exactly one
HAL call: a transmit to the handle's slave address of the two bytes
`[cmd >> 8, cmd & 0xFF]`, most significant byte first, with timeout 100; it
performs no receive, pin write or delay, and returns the status of that
transmit. -/
theorem thermo26_write_command_one_transmit (hal : HAL) (ctx : thermo26_t) (cmd : Nat)
    (trace : List Event) (hcmd : cmd < 65536) :
    (thermo26_write_command hal ctx cmd trace).2 =
        trace ++ [Event.transmit ctx.i2c ctx.slave_address [cmd >>> 8, cmd &&& 0xFF] 100] ∧
      (thermo26_write_command hal ctx cmd trace).1 =
        hal.i2c_transmit
          (trace ++ [Event.transmit ctx.i2c ctx.slave_address [cmd >>> 8, cmd &&& 0xFF] 100]) := by
  rw [← thermo26_cmd_bytes_eq cmd hcmd]
  simp [thermo26_write_command, HAL_I2C_Master_Transmit, thermo26_cmd_bytes]

/-- Witness for C3: the soft-reset command 0x30A2 on a bus that answers busy. -/
theorem thermo26_write_command_one_transmit_witness :
    0x30A2 < 65536 ∧
      (thermo26_write_command (hal_const HAL_BUSY HAL_OK []) ctx_sample 0x30A2 []).2 =
        [] ++ [Event.transmit ctx_sample.i2c ctx_sample.slave_address
          [0x30A2 >>> 8, 0x30A2 &&& 0xFF] 100] ∧
      (thermo26_write_command (hal_const HAL_BUSY HAL_OK []) ctx_sample 0x30A2 []).1 =
        (hal_const HAL_BUSY HAL_OK []).i2c_transmit
          ([] ++ [Event.transmit ctx_sample.i2c ctx_sample.slave_address
            [0x30A2 >>> 8, 0x30A2 &&& 0xFF] 100]) :=
  ⟨by decide,
    thermo26_write_command_one_transmit (hal_const HAL_BUSY HAL_OK []) ctx_sample 0x30A2 []
      (by decide)⟩

/-! ## Command read -/

/-- C4: for every 16-bit `cmd`, when the transmit and the 3-byte receive both
return `HAL_OK` and the received bytes `(b0, b1, b2)` satisfy
`b2 = thermo26_calculate_crc (b0, b1)`, `thermo26_read_command` returns `HAL_OK`
and stores `(b0 << 8) | b1` in `data_out`; received bytes `[0xBE, 0xEF, 0x92]`
yield 0xBEEF. -/
theorem thermo26_read_command_accepts (hal : HAL) (ctx : thermo26_t) (cmd data_out : Nat)
    (trace : List Event) (b0 b1 b2 : Nat) (hcmd : cmd < 65536)
    (h0 : b0 < 256) (h1 : b1 < 256) (h2 : b2 < 256)
    (htx : hal.i2c_transmit
      (trace ++ [Event.transmit ctx.i2c ctx.slave_address [cmd >>> 8, cmd &&& 0xFF] 100])
      = HAL_OK)
    (hrx : hal.i2c_receive
      (trace ++ [Event.transmit ctx.i2c ctx.slave_address [cmd >>> 8, cmd &&& 0xFF] 100,
        Event.receive ctx.i2c ctx.slave_address 3 100])
      = (HAL_OK, [b0, b1, b2])) :
    (b2 = thermo26_calculate_crc [b0, b1] →
        (thermo26_read_command hal ctx cmd data_out trace).1 = HAL_OK ∧
        (thermo26_read_command hal ctx cmd data_out trace).2.1 = (b0 <<< 8) ||| b1) ∧
      (b0 = 0xBE → b1 = 0xEF → b2 = 0x92 →
        (thermo26_read_command hal ctx cmd data_out trace).1 = HAL_OK ∧
        (thermo26_read_command hal ctx cmd data_out trace).2.1 = 0xBEEF) := by
  have hgen := thermo26_read_command_ok hal ctx cmd data_out trace b0 b1 b2 h0 h1 h2
    (by rw [thermo26_cmd_bytes_eq cmd hcmd]; exact htx)
    (by rw [thermo26_cmd_bytes_eq cmd hcmd, List.append_assoc]; exact hrx)
  refine ⟨hgen, ?_⟩
  intro e0 e1 e2
  subst e0 e1 e2
  exact hgen (by decide)

/-- Witness for C4: the frame `[0xBE, 0xEF, 0x92]` on a bus that always succeeds. -/
theorem thermo26_read_command_accepts_witness :
    (thermo26_read_command (hal_const HAL_OK HAL_OK [0xBE, 0xEF, 0x92]) ctx_sample
        THERMO26_CMD_FETCH_DATA 0 []).1 = HAL_OK ∧
      (thermo26_read_command (hal_const HAL_OK HAL_OK [0xBE, 0xEF, 0x92]) ctx_sample
        THERMO26_CMD_FETCH_DATA 0 []).2.1 = 0xBEEF :=
  (thermo26_read_command_accepts (hal_const HAL_OK HAL_OK [0xBE, 0xEF, 0x92]) ctx_sample
    THERMO26_CMD_FETCH_DATA 0 [] 0xBE 0xEF 0x92 (by decide) (by decide) (by decide) (by decide)
    rfl rfl).2 rfl rfl rfl

/-- C5: for every 16-bit `cmd` and every received frame `(b0, b1, b2)` with
`b2 ≠ thermo26_calculate_crc (b0, b1)`, `thermo26_read_command` returns
`HAL_ERROR` and leaves the value behind `data_out` as it was, whatever the
transmit and the receive returned (so also when both succeeded); the frame
`[0xBE, 0xEF, 0x00]` is rejected. -/
theorem thermo26_read_command_rejects (hal : HAL) (ctx : thermo26_t) (cmd data_out : Nat)
    (trace : List Event) (b0 b1 b2 : Nat) (hcmd : cmd < 65536)
    (h0 : b0 < 256) (h1 : b1 < 256) (h2 : b2 < 256)
    (hrx : (hal.i2c_receive
      (trace ++ [Event.transmit ctx.i2c ctx.slave_address [cmd >>> 8, cmd &&& 0xFF] 100,
        Event.receive ctx.i2c ctx.slave_address 3 100])).2 = [b0, b1, b2]) :
    (b2 ≠ thermo26_calculate_crc [b0, b1] →
        (thermo26_read_command hal ctx cmd data_out trace).1 = HAL_ERROR ∧
        (thermo26_read_command hal ctx cmd data_out trace).2.1 = data_out) ∧
      (b0 = 0xBE → b1 = 0xEF → b2 = 0x00 →
        (thermo26_read_command hal ctx cmd data_out trace).1 = HAL_ERROR ∧
        (thermo26_read_command hal ctx cmd data_out trace).2.1 = data_out) := by
  have hgen := thermo26_read_command_mismatch_gen hal ctx cmd data_out trace b0 b1 b2 h0 h1 h2
    (by rw [thermo26_cmd_bytes_eq cmd hcmd, List.append_assoc]; exact hrx)
  refine ⟨hgen, ?_⟩
  intro e0 e1 e2
  subst e0 e1 e2
  exact hgen (by decide)

/-- Witness for C5: the frame `[0xBE, 0xEF, 0x00]` on a bus that always succeeds. -/
theorem thermo26_read_command_rejects_witness :
    (thermo26_read_command (hal_const HAL_OK HAL_OK [0xBE, 0xEF, 0x00]) ctx_sample
        THERMO26_CMD_FETCH_DATA 0x1234 []).1 = HAL_ERROR ∧
      (thermo26_read_command (hal_const HAL_OK HAL_OK [0xBE, 0xEF, 0x00]) ctx_sample
        THERMO26_CMD_FETCH_DATA 0x1234 []).2.1 = 0x1234 :=
  (thermo26_read_command_rejects (hal_const HAL_OK HAL_OK [0xBE, 0xEF, 0x00]) ctx_sample
    THERMO26_CMD_FETCH_DATA 0x1234 [] 0xBE 0xEF 0x00 (by decide) (by decide) (by decide)
    (by decide) rfl).2 rfl rfl rfl

/-- C6: for every 16-bit `cmd`, if the transmit of the command or the 3-byte
receive returns a status other than `HAL_OK` (`HAL_ERROR`, `HAL_BUSY` or
`HAL_TIMEOUT`), `thermo26_read_command` returns `HAL_ERROR` and leaves `data_out`
unchanged, whatever bytes the receive buffer holds, a frame with a matching
checksum included. -/
theorem thermo26_read_command_transport_failure (hal : HAL) (ctx : thermo26_t)
    (cmd data_out : Nat) (trace : List Event) (hcmd : cmd < 65536)
    (hfail : hal.i2c_transmit
        (trace ++ [Event.transmit ctx.i2c ctx.slave_address [cmd >>> 8, cmd &&& 0xFF] 100])
        ≠ HAL_OK ∨
      (hal.i2c_receive
        (trace ++ [Event.transmit ctx.i2c ctx.slave_address [cmd >>> 8, cmd &&& 0xFF] 100,
          Event.receive ctx.i2c ctx.slave_address 3 100])).1 ≠ HAL_OK) :
    (thermo26_read_command hal ctx cmd data_out trace).1 = HAL_ERROR ∧
      (thermo26_read_command hal ctx cmd data_out trace).2.1 = data_out := by
  apply thermo26_read_command_transport_failure_gen
  rw [thermo26_cmd_bytes_eq cmd hcmd, List.append_assoc]
  exact hfail

/-- Witness for C6: the write times out while the receive delivers the valid
frame `[0xBE, 0xEF, 0x92]`. -/
theorem thermo26_read_command_transport_failure_witness :
    (thermo26_read_command (hal_const HAL_TIMEOUT HAL_OK [0xBE, 0xEF, 0x92]) ctx_sample
        THERMO26_CMD_FETCH_DATA 0x1234 []).1 = HAL_ERROR ∧
      (thermo26_read_command (hal_const HAL_TIMEOUT HAL_OK [0xBE, 0xEF, 0x92]) ctx_sample
        THERMO26_CMD_FETCH_DATA 0x1234 []).2.1 = 0x1234 :=
  thermo26_read_command_transport_failure (hal_const HAL_TIMEOUT HAL_OK [0xBE, 0xEF, 0x92])
    ctx_sample THERMO26_CMD_FETCH_DATA 0x1234 [] (by decide) (Or.inl (by decide))

/-! ## Command codec -/

/-- C7: codec round trip.  For every 16-bit `c`, the bytes that
`thermo26_write_command` puts on the wire are `[c >> 8, c & 0xFF]`, and decoding
them with the word decoding of `thermo26_read_command` gives back `c`; for every
byte pair `(b0, b1)` the decoded word is `(b0 << 8) | b1`, and encoding it gives
back `(b0, b1)`. -/
theorem thermo26_codec_round_trip (c b0 b1 : Nat) (hc : c < 65536) (h0 : b0 < 256)
    (h1 : b1 < 256) :
    (thermo26_cmd_bytes c = [c >>> 8, c &&& 0xFF] ∧
        thermo26_data_word (thermo26_cmd_bytes c) = c) ∧
      (thermo26_data_word [b0, b1] = (b0 <<< 8) ||| b1 ∧
        thermo26_cmd_bytes (thermo26_data_word [b0, b1]) = [b0, b1]) := by
  have hb : thermo26_data_word [b0, b1] = b0 * 256 + b1 := by
    rw [thermo26_data_word_eq b0 b1 [] h0 h1, shiftLeft_8_lor b0 b1 h1]
  refine ⟨⟨thermo26_cmd_bytes_eq c hc, ?_⟩, thermo26_data_word_eq b0 b1 [] h0 h1, ?_⟩
  · rw [thermo26_cmd_bytes_eq c hc, and_0xFF, shiftRight_8,
      thermo26_data_word_eq _ _ [] (by omega) (by omega), shiftLeft_8_lor _ _ (by omega)]
    omega
  · rw [hb, thermo26_cmd_bytes_eq _ (by omega), and_0xFF, shiftRight_8]
    congr 1
    · omega
    · congr 1
      omega

/-- Witness for C7 at the word 0xBEEF and the bytes 0xBE, 0xEF. -/
theorem thermo26_codec_round_trip_witness :
    (thermo26_cmd_bytes 0xBEEF = [0xBEEF >>> 8, 0xBEEF &&& 0xFF] ∧
        thermo26_data_word (thermo26_cmd_bytes 0xBEEF) = 0xBEEF) ∧
      (thermo26_data_word [0xBE, 0xEF] = (0xBE <<< 8) ||| 0xEF ∧
        thermo26_cmd_bytes (thermo26_data_word [0xBE, 0xEF]) = [0xBE, 0xEF]) :=
  thermo26_codec_round_trip 0xBEEF 0xBE 0xEF (by decide) (by decide) (by decide)

/-! ## Temperature read -/

/-- C8: for every raw 16-bit count delivered by a successful fetch (the start
write, the fetch write and the receive return `HAL_OK`, and the frame carries
`raw` with its checksum), `thermo26_read_temperature` returns `HAL_OK` and stores
`-45.0 + (130.0 - (-45.0)) * raw / 65535.0`, over exact rational arithmetic;
`raw = 0` gives exactly -45, `raw = 65535` exactly 130, and `raw = 32767` a value
within 0.01 of 42.49. -/
theorem thermo26_read_temperature_value (hal : HAL) (ctx : thermo26_t) (temperature : ℚ)
    (raw_temp : Nat) (trace : List Event) (raw : Nat) (hraw : raw < 65536)
    (hstart : hal.i2c_transmit
      (trace ++ [Event.transmit ctx.i2c ctx.slave_address [0x21, 0x30] 100]) = HAL_OK)
    (hfetch : hal.i2c_transmit
      (trace ++ [Event.transmit ctx.i2c ctx.slave_address [0x21, 0x30] 100, Event.delay 20,
        Event.transmit ctx.i2c ctx.slave_address [0xE0, 0x00] 100]) = HAL_OK)
    (hrx : hal.i2c_receive
      (trace ++ [Event.transmit ctx.i2c ctx.slave_address [0x21, 0x30] 100, Event.delay 20,
        Event.transmit ctx.i2c ctx.slave_address [0xE0, 0x00] 100,
        Event.receive ctx.i2c ctx.slave_address 3 100])
      = (HAL_OK, [raw >>> 8, raw &&& 0xFF,
          thermo26_calculate_crc [raw >>> 8, raw &&& 0xFF]])) :
    (thermo26_read_temperature hal ctx temperature raw_temp trace).1 = HAL_OK ∧
      (thermo26_read_temperature hal ctx temperature raw_temp trace).2.1
        = -45 + (130 - (-45)) * (raw : ℚ) / 65535 ∧
      (raw = 0 →
        (thermo26_read_temperature hal ctx temperature raw_temp trace).2.1 = -45) ∧
      (raw = 65535 →
        (thermo26_read_temperature hal ctx temperature raw_temp trace).2.1 = 130) ∧
      (raw = 32767 →
        |(thermo26_read_temperature hal ctx temperature raw_temp trace).2.1 - 42.49| ≤ 0.01) := by
  have hb0 : raw >>> 8 < 256 := by rw [shiftRight_8]; omega
  have hb1 : raw &&& 0xFF < 256 := by rw [and_0xFF]; omega
  have hb2 : thermo26_calculate_crc [raw >>> 8, raw &&& 0xFF] < 256 :=
    (thermo26_calculate_crc_eq_loop_bound (raw >>> 8) (raw &&& 0xFF))
  have hword : ((raw >>> 8) <<< 8) ||| (raw &&& 0xFF) = raw := by
    rw [shiftLeft_8_lor _ _ hb1, and_0xFF, shiftRight_8]; omega
  have hacc := (thermo26_read_command_ok hal ctx THERMO26_CMD_FETCH_DATA raw_temp
    (trace ++ [Event.transmit ctx.i2c ctx.slave_address [0x21, 0x30] 100, Event.delay 20])
    (raw >>> 8) (raw &&& 0xFF) (thermo26_calculate_crc [raw >>> 8, raw &&& 0xFF])
    hb0 hb1 hb2
    (by rw [fetch_cmd_bytes]; simpa using hfetch)
    (by rw [fetch_cmd_bytes]; simpa using hrx)) rfl
  rw [hword] at hacc
  have hval : thermo26_read_temperature hal ctx temperature raw_temp trace
      = (HAL_OK, thermo26_raw_to_celsius raw,
          (thermo26_read_command hal ctx THERMO26_CMD_FETCH_DATA raw_temp
            (thermo26_start_measurement hal ctx THERMO26_CMD_PERIODIC_1_MPS_REP_HIGH
              trace).2).2.2) := by
    rw [thermo26_read_temperature_unfold, thermo26_start_measurement_unfold, periodic_cmd_bytes]
    simp only [hstart, hacc.1, hacc.2, and_self, if_true]
  have hformula : thermo26_raw_to_celsius raw = -45 + (130 - (-45)) * (raw : ℚ) / 65535 := by
    simp [thermo26_raw_to_celsius, THERMO26_ABS_MIN_TEMP, THERMO26_ABS_MAX_TEMP,
      THERMO26_DATA_RESOLUTION]
  rw [hval]
  refine ⟨rfl, hformula, ?_, ?_, ?_⟩
  · intro h; subst h
    show thermo26_raw_to_celsius 0 = -45
    rw [hformula]; norm_num
  · intro h; subst h
    show thermo26_raw_to_celsius 65535 = 130
    rw [hformula]; norm_num
  · intro h; subst h
    show |thermo26_raw_to_celsius 32767 - 42.49| ≤ 0.01
    rw [hformula, abs_le]
    constructor <;> norm_num

/-- Witness for C8: the count 32767 on a bus that always succeeds. -/
theorem thermo26_read_temperature_value_witness :
    (thermo26_read_temperature (hal_const HAL_OK HAL_OK [0x7F, 0xFF, 0x8F]) ctx_sample 0 0
        []).1 = HAL_OK ∧
      (thermo26_read_temperature (hal_const HAL_OK HAL_OK [0x7F, 0xFF, 0x8F]) ctx_sample 0 0
        []).2.1 = -45 + (130 - (-45)) * ((32767 : Nat) : ℚ) / 65535 ∧
      |(thermo26_read_temperature (hal_const HAL_OK HAL_OK [0x7F, 0xFF, 0x8F]) ctx_sample 0 0
        []).2.1 - 42.49| ≤ 0.01 :=
  have h := thermo26_read_temperature_value (hal_const HAL_OK HAL_OK [0x7F, 0xFF, 0x8F])
    ctx_sample 0 0 [] 32767 (by decide) rfl rfl (by decide)
  ⟨h.1, h.2.1, h.2.2.2.2 rfl⟩

/-- C9: `thermo26_read_temperature` returns `HAL_OK` if and only if both
`thermo26_start_measurement` and `thermo26_read_command` returned `HAL_OK`;
whenever either step fails (the start write fails, the fetch write fails, the
receive fails, or the checksum does not match) it returns `HAL_ERROR` and leaves
the value behind the `temperature` out-parameter unchanged. -/
theorem thermo26_read_temperature_status (hal : HAL) (ctx : thermo26_t) (temperature : ℚ)
    (raw_temp : Nat) (trace : List Event) :
    ((thermo26_read_temperature hal ctx temperature raw_temp trace).1 = HAL_OK ↔
        (thermo26_start_measurement hal ctx THERMO26_CMD_PERIODIC_1_MPS_REP_HIGH trace).1
            = HAL_OK ∧
          (thermo26_read_command hal ctx THERMO26_CMD_FETCH_DATA raw_temp
            (thermo26_start_measurement hal ctx THERMO26_CMD_PERIODIC_1_MPS_REP_HIGH trace).2).1
            = HAL_OK) ∧
      (¬ ((thermo26_start_measurement hal ctx THERMO26_CMD_PERIODIC_1_MPS_REP_HIGH trace).1
            = HAL_OK ∧
          (thermo26_read_command hal ctx THERMO26_CMD_FETCH_DATA raw_temp
            (thermo26_start_measurement hal ctx THERMO26_CMD_PERIODIC_1_MPS_REP_HIGH trace).2).1
            = HAL_OK) →
        (thermo26_read_temperature hal ctx temperature raw_temp trace).1 = HAL_ERROR ∧
        (thermo26_read_temperature hal ctx temperature raw_temp trace).2.1 = temperature) ∧
      (hal.i2c_transmit
          (trace ++ [Event.transmit ctx.i2c ctx.slave_address [0x21, 0x30] 100]) ≠ HAL_OK →
        (thermo26_read_temperature hal ctx temperature raw_temp trace).1 = HAL_ERROR ∧
        (thermo26_read_temperature hal ctx temperature raw_temp trace).2.1 = temperature) ∧
      (hal.i2c_transmit
          (trace ++ [Event.transmit ctx.i2c ctx.slave_address [0x21, 0x30] 100, Event.delay 20,
            Event.transmit ctx.i2c ctx.slave_address [0xE0, 0x00] 100]) ≠ HAL_OK →
        (thermo26_read_temperature hal ctx temperature raw_temp trace).1 = HAL_ERROR ∧
        (thermo26_read_temperature hal ctx temperature raw_temp trace).2.1 = temperature) ∧
      ((hal.i2c_receive
          (trace ++ [Event.transmit ctx.i2c ctx.slave_address [0x21, 0x30] 100, Event.delay 20,
            Event.transmit ctx.i2c ctx.slave_address [0xE0, 0x00] 100,
            Event.receive ctx.i2c ctx.slave_address 3 100])).1 ≠ HAL_OK →
        (thermo26_read_temperature hal ctx temperature raw_temp trace).1 = HAL_ERROR ∧
        (thermo26_read_temperature hal ctx temperature raw_temp trace).2.1 = temperature) ∧
      (∀ b0 b1 b2 : Nat, b0 < 256 → b1 < 256 → b2 < 256 →
        (hal.i2c_receive
          (trace ++ [Event.transmit ctx.i2c ctx.slave_address [0x21, 0x30] 100, Event.delay 20,
            Event.transmit ctx.i2c ctx.slave_address [0xE0, 0x00] 100,
            Event.receive ctx.i2c ctx.slave_address 3 100])).2 = [b0, b1, b2] →
        b2 ≠ thermo26_calculate_crc [b0, b1] →
        (thermo26_read_temperature hal ctx temperature raw_temp trace).1 = HAL_ERROR ∧
        (thermo26_read_temperature hal ctx temperature raw_temp trace).2.1 = temperature) := by
  have hfail : ¬ ((thermo26_start_measurement hal ctx THERMO26_CMD_PERIODIC_1_MPS_REP_HIGH
            trace).1 = HAL_OK ∧
          (thermo26_read_command hal ctx THERMO26_CMD_FETCH_DATA raw_temp
            (thermo26_start_measurement hal ctx THERMO26_CMD_PERIODIC_1_MPS_REP_HIGH trace).2).1
            = HAL_OK) →
        (thermo26_read_temperature hal ctx temperature raw_temp trace).1 = HAL_ERROR ∧
        (thermo26_read_temperature hal ctx temperature raw_temp trace).2.1 = temperature := by
    intro h
    rw [thermo26_read_temperature_unfold, if_neg h]
    exact ⟨rfl, rfl⟩
  have hstart : (thermo26_start_measurement hal ctx THERMO26_CMD_PERIODIC_1_MPS_REP_HIGH
      trace) = (hal.i2c_transmit
          (trace ++ [Event.transmit ctx.i2c ctx.slave_address [0x21, 0x30] 100]),
        trace ++ [Event.transmit ctx.i2c ctx.slave_address [0x21, 0x30] 100,
          Event.delay 20]) := by
    rw [thermo26_start_measurement_unfold, periodic_cmd_bytes]
  have hfetch : (0xE000 : Nat) < 65536 := by decide
  refine ⟨?_, hfail, ?_, ?_, ?_, ?_⟩
  · rw [thermo26_read_temperature_unfold]
    by_cases hboth : (thermo26_start_measurement hal ctx THERMO26_CMD_PERIODIC_1_MPS_REP_HIGH
            trace).1 = HAL_OK ∧
          (thermo26_read_command hal ctx THERMO26_CMD_FETCH_DATA raw_temp
            (thermo26_start_measurement hal ctx THERMO26_CMD_PERIODIC_1_MPS_REP_HIGH trace).2).1
            = HAL_OK
    · rw [if_pos hboth]
      exact ⟨fun _ => hboth, fun _ => rfl⟩
    · rw [if_neg hboth]
      exact ⟨fun h => HAL_StatusTypeDef.noConfusion h, fun h => absurd h hboth⟩
  · intro h
    apply hfail
    rw [hstart]
    intro hboth
    exact h hboth.1
  · intro h
    apply hfail
    rw [hstart]
    intro hboth
    have := (thermo26_read_command_transport_failure_gen hal ctx THERMO26_CMD_FETCH_DATA raw_temp
      (trace ++ [Event.transmit ctx.i2c ctx.slave_address [0x21, 0x30] 100, Event.delay 20])
      (Or.inl (by rw [fetch_cmd_bytes]; simpa using h))).1
    rw [this] at hboth
    exact absurd hboth.2 (by decide)
  · intro h
    apply hfail
    rw [hstart]
    intro hboth
    have := (thermo26_read_command_transport_failure_gen hal ctx THERMO26_CMD_FETCH_DATA raw_temp
      (trace ++ [Event.transmit ctx.i2c ctx.slave_address [0x21, 0x30] 100, Event.delay 20])
      (Or.inr (by rw [fetch_cmd_bytes]; simpa using h))).1
    rw [this] at hboth
    exact absurd hboth.2 (by decide)
  · intro b0 b1 b2 h0 h1 h2 hrx hcrc
    apply hfail
    rw [hstart]
    intro hboth
    have := (thermo26_read_command_mismatch_gen hal ctx THERMO26_CMD_FETCH_DATA raw_temp
      (trace ++ [Event.transmit ctx.i2c ctx.slave_address [0x21, 0x30] 100, Event.delay 20])
      b0 b1 b2 h0 h1 h2 (by rw [fetch_cmd_bytes]; simpa using hrx) hcrc).1
    rw [this] at hboth
    exact absurd hboth.2 (by decide)

/-! ## Start of a measurement -/

/-- C10: for every 16-bit `cmd` and every outcome of the write,
`thermo26_start_measurement` first transmits the command and then performs
exactly one delay of 20 time units, and it returns the status that the write
returned. -/
theorem thermo26_start_measurement_delay (hal : HAL) (ctx : thermo26_t) (cmd : Nat)
    (trace : List Event) (hcmd : cmd < 65536) :
    (thermo26_start_measurement hal ctx cmd trace).2 =
        trace ++ [Event.transmit ctx.i2c ctx.slave_address [cmd >>> 8, cmd &&& 0xFF] 100,
          Event.delay 20] ∧
      (thermo26_start_measurement hal ctx cmd trace).2 =
        (thermo26_write_command hal ctx cmd trace).2 ++ [Event.delay 20] ∧
      (thermo26_start_measurement hal ctx cmd trace).1 =
        (thermo26_write_command hal ctx cmd trace).1 ∧
      (thermo26_start_measurement hal ctx cmd trace).1 =
        hal.i2c_transmit
          (trace ++ [Event.transmit ctx.i2c ctx.slave_address [cmd >>> 8, cmd &&& 0xFF] 100]) := by
  rw [thermo26_start_measurement_unfold, thermo26_cmd_bytes_eq cmd hcmd]
  simp [thermo26_write_command, HAL_I2C_Master_Transmit, thermo26_cmd_bytes_eq cmd hcmd]

/-- Witness for C10: the periodic command 0x2130 on a bus whose write fails. -/
theorem thermo26_start_measurement_delay_witness :
    (thermo26_start_measurement (hal_const HAL_ERROR HAL_OK []) ctx_sample 0x2130 []).2 =
        [] ++ [Event.transmit ctx_sample.i2c ctx_sample.slave_address
          [0x2130 >>> 8, 0x2130 &&& 0xFF] 100, Event.delay 20] ∧
      (thermo26_start_measurement (hal_const HAL_ERROR HAL_OK []) ctx_sample 0x2130 []).2 =
        (thermo26_write_command (hal_const HAL_ERROR HAL_OK []) ctx_sample 0x2130 []).2
          ++ [Event.delay 20] ∧
      (thermo26_start_measurement (hal_const HAL_ERROR HAL_OK []) ctx_sample 0x2130 []).1 =
        (thermo26_write_command (hal_const HAL_ERROR HAL_OK []) ctx_sample 0x2130 []).1 ∧
      (thermo26_start_measurement (hal_const HAL_ERROR HAL_OK []) ctx_sample 0x2130 []).1 =
        (hal_const HAL_ERROR HAL_OK []).i2c_transmit
          ([] ++ [Event.transmit ctx_sample.i2c ctx_sample.slave_address
            [0x2130 >>> 8, 0x2130 &&& 0xFF] 100]) :=
  thermo26_start_measurement_delay (hal_const HAL_ERROR HAL_OK []) ctx_sample 0x2130 []
    (by decide)

/-! ## Stop of a measurement -/

/-- C11: for every transport outcome, `thermo26_stop_measurement` transmits
exactly the BREAK command 0x3093 as the two bytes `[0x30, 0x93]`, then performs
exactly one delay of 1 time unit, and returns the status of that write. -/
theorem thermo26_stop_measurement_break (hal : HAL) (ctx : thermo26_t) (trace : List Event) :
    THERMO26_CMD_BREAK = 0x3093 ∧
      (thermo26_stop_measurement hal ctx trace).2 =
        trace ++ [Event.transmit ctx.i2c ctx.slave_address [0x30, 0x93] 100, Event.delay 1] ∧
      (thermo26_stop_measurement hal ctx trace).1 =
        hal.i2c_transmit
          (trace ++ [Event.transmit ctx.i2c ctx.slave_address [0x30, 0x93] 100]) ∧
      (thermo26_stop_measurement hal ctx trace).1 =
        (thermo26_write_command hal ctx THERMO26_CMD_BREAK trace).1 := by
  rw [thermo26_stop_measurement_unfold, break_cmd_bytes]
  refine ⟨rfl, rfl, rfl, ?_⟩
  simp [thermo26_write_command, HAL_I2C_Master_Transmit, break_cmd_bytes]

/-! ## Device reset -/

/-- C12: `thermo26_reset_device` produces exactly the event sequence: reset pin
driven low, delay 1, reset pin driven high, delay 100, in that order, on the
handle's reset port and pin; none of these events is a bus transfer, and the
reset pin is high when the function returns. -/
theorem thermo26_reset_device_sequence (ctx : thermo26_t) (trace : List Event) :
    thermo26_reset_device ctx trace =
        trace ++ [Event.gpio_write ctx.rst_port ctx.rst_pin GPIO_PinState.GPIO_PIN_RESET,
          Event.delay 1,
          Event.gpio_write ctx.rst_port ctx.rst_pin GPIO_PinState.GPIO_PIN_SET,
          Event.delay 100] ∧
      (∀ e ∈ (thermo26_reset_device ctx trace).drop trace.length, e.bus_address = none) ∧
      pin_level ctx.rst_port ctx.rst_pin (thermo26_reset_device ctx trace)
        = some GPIO_PinState.GPIO_PIN_SET := by
  rw [thermo26_reset_device_unfold]
  refine ⟨rfl, ?_, ?_⟩
  · intro e he
    rw [List.drop_left] at he
    simp only [List.mem_cons, List.mem_singleton, List.not_mem_nil, or_false] at he
    rcases he with h | h | h | h <;> subst h <;> rfl
  · apply pin_level_append
    simp [pin_level]

/-! ## Reset pin setter -/

/-- C13 (the code at the failing input): called with `state = 1`,
`thermo26_set_rst_pin` writes the level low to the reset pin, while the level
asked for is high. -/
theorem thermo26_set_rst_pin_state_one :
    thermo26_set_rst_pin ctx_sample 1 [] =
        [Event.gpio_write ctx_sample.rst_port ctx_sample.rst_pin
          GPIO_PinState.GPIO_PIN_RESET] ∧
      pin_level ctx_sample.rst_port ctx_sample.rst_pin (thermo26_set_rst_pin ctx_sample 1 [])
        = some GPIO_PinState.GPIO_PIN_RESET ∧
      requested_level 1 = GPIO_PinState.GPIO_PIN_SET := by
  decide

/-! ## Status values of the write operations -/

/-- C14 (the code at the failing input): when the bus answers the transmit with
`HAL_BUSY`, each of `thermo26_write_command`, `thermo26_start_measurement` and
`thermo26_stop_measurement` returns `HAL_BUSY`, which is neither `HAL_OK` nor
`HAL_ERROR`. -/
theorem thermo26_write_operations_return_busy :
    (thermo26_write_command (hal_const HAL_BUSY HAL_OK []) ctx_sample
        THERMO26_CMD_PERIODIC_1_MPS_REP_HIGH []).1 = HAL_BUSY ∧
      (thermo26_start_measurement (hal_const HAL_BUSY HAL_OK []) ctx_sample
        THERMO26_CMD_PERIODIC_1_MPS_REP_HIGH []).1 = HAL_BUSY ∧
      (thermo26_stop_measurement (hal_const HAL_BUSY HAL_OK []) ctx_sample []).1 = HAL_BUSY ∧
      HAL_BUSY ≠ HAL_OK ∧ HAL_BUSY ≠ HAL_ERROR := by
  decide

/-! ## Range of the temperature -/

/-- C15: for every raw 16-bit count the converted temperature lies in the closed
range [-45, 130], and so does every temperature that `thermo26_read_temperature`
stores when it returns `HAL_OK`; no clamping is needed (over exact rational
arithmetic). -/
theorem thermo26_temperature_range (hal : HAL) (ctx : thermo26_t) (temperature : ℚ)
    (raw_temp : Nat) (trace : List Event) (raw : Nat) (hraw : raw < 65536) :
    (-45 ≤ thermo26_raw_to_celsius raw ∧ thermo26_raw_to_celsius raw ≤ 130) ∧
      ((thermo26_read_temperature hal ctx temperature raw_temp trace).1 = HAL_OK →
        -45 ≤ (thermo26_read_temperature hal ctx temperature raw_temp trace).2.1 ∧
        (thermo26_read_temperature hal ctx temperature raw_temp trace).2.1 ≤ 130) := by
  refine ⟨thermo26_raw_to_celsius_range raw hraw, ?_⟩
  intro hok
  rw [thermo26_read_temperature_unfold] at hok ⊢
  split at hok
  · rename_i hc
    rw [if_pos hc]
    exact thermo26_raw_to_celsius_range _ (thermo26_read_command_word_lt hal ctx _ _ _ hc.2)
  · exact HAL_StatusTypeDef.noConfusion hok

/-- Witness for C15: the count 65535 and a read that delivers the count 32767. -/
theorem thermo26_temperature_range_witness :
    (-45 ≤ thermo26_raw_to_celsius 65535 ∧ thermo26_raw_to_celsius 65535 ≤ 130) ∧
      (-45 ≤ (thermo26_read_temperature (hal_const HAL_OK HAL_OK [0x7F, 0xFF, 0x8F])
          ctx_sample 0 0 []).2.1 ∧
        (thermo26_read_temperature (hal_const HAL_OK HAL_OK [0x7F, 0xFF, 0x8F])
          ctx_sample 0 0 []).2.1 ≤ 130) :=
  have h := thermo26_temperature_range (hal_const HAL_OK HAL_OK [0x7F, 0xFF, 0x8F])
    ctx_sample 0 0 [] 65535 (by decide)
  ⟨h.1, h.2 (by decide)⟩

/-! ## Checksum: input dependence -/

/-- C17: the checksum depends only on the first two bytes of the buffer it is
given: two buffers that agree on bytes 0 and 1 have the same
`thermo26_calculate_crc`, whatever else they hold; in particular two 3-byte
receive buffers that differ in byte 2 only. -/
theorem thermo26_calculate_crc_first_two_bytes (buf1 buf2 : List Nat)
    (h0 : buf1.getD 0 0 = buf2.getD 0 0) (h1 : buf1.getD 1 0 = buf2.getD 1 0) :
    thermo26_calculate_crc buf1 = thermo26_calculate_crc buf2 ∧
      (∀ b0 b1 x y : Nat,
        thermo26_calculate_crc [b0, b1, x] = thermo26_calculate_crc [b0, b1, y]) := by
  constructor
  · simp only [List.getD_eq_getElem?_getD] at h0 h1
    simp [thermo26_calculate_crc, crc_byte_loop, h0, h1]
  · intro b0 b1 x y
    rw [thermo26_calculate_crc_tail_irrelevant b0 b1 [x], thermo26_calculate_crc_tail_irrelevant b0 b1 [y]]

/-- Witness for C17: the buffers `[0xBE, 0xEF, 0x92]` and `[0xBE, 0xEF, 0x00]`. -/
theorem thermo26_calculate_crc_first_two_bytes_witness :
    thermo26_calculate_crc [0xBE, 0xEF, 0x92] = thermo26_calculate_crc [0xBE, 0xEF, 0x00] ∧
      (∀ b0 b1 x y : Nat,
        thermo26_calculate_crc [b0, b1, x] = thermo26_calculate_crc [b0, b1, y]) :=
  thermo26_calculate_crc_first_two_bytes [0xBE, 0xEF, 0x92] [0xBE, 0xEF, 0x00] rfl rfl

/-! ## Event sequence of a temperature read -/

/-- C18: `thermo26_read_temperature` produces exactly the event sequence:
transmit `[0x21, 0x30]` (command 0x2130), delay 20, transmit `[0xE0, 0x00]`
(command 0xE000), receive 3 bytes, all to the handle's slave address with
timeout 100, and no other event.  This holds for every answer of the bus, hence
when every transport call succeeds. -/
theorem thermo26_read_temperature_sequence (hal : HAL) (ctx : thermo26_t) (temperature : ℚ)
    (raw_temp : Nat) (trace : List Event) :
    THERMO26_CMD_PERIODIC_1_MPS_REP_HIGH = 0x2130 ∧ THERMO26_CMD_FETCH_DATA = 0xE000 ∧
      (thermo26_read_temperature hal ctx temperature raw_temp trace).2.2 =
        trace ++ [Event.transmit ctx.i2c ctx.slave_address [0x21, 0x30] 100,
          Event.delay 20,
          Event.transmit ctx.i2c ctx.slave_address [0xE0, 0x00] 100,
          Event.receive ctx.i2c ctx.slave_address 3 100] :=
  ⟨rfl, rfl, thermo26_read_temperature_trace hal ctx temperature raw_temp trace⟩

/-! ## No short circuit in the command read -/

/-- C19: `thermo26_read_command` does not short-circuit on a failed write.  For
every 16-bit `cmd` and every status of the transmit it performs exactly one
3-byte receive from the device address after the transmit; the two statuses are
OR-combined, the result is `HAL_OK` exactly when the combined flag is `HAL_OK`
and the checksum matches, and a combined flag other than `HAL_OK` gives
`HAL_ERROR` whatever the checksum comparison would say. -/
theorem thermo26_read_command_no_short_circuit (hal : HAL) (ctx : thermo26_t)
    (cmd data_out : Nat) (trace : List Event) (hcmd : cmd < 65536) :
    (thermo26_read_command hal ctx cmd data_out trace).2.2 =
        trace ++ [Event.transmit ctx.i2c ctx.slave_address [cmd >>> 8, cmd &&& 0xFF] 100,
          Event.receive ctx.i2c ctx.slave_address 3 100] ∧
      ((thermo26_read_command hal ctx cmd data_out trace).1 = HAL_OK ↔
        (hal.i2c_transmit
            (trace ++ [Event.transmit ctx.i2c ctx.slave_address [cmd >>> 8, cmd &&& 0xFF] 100])
          ).lor
          (hal.i2c_receive
            (trace ++ [Event.transmit ctx.i2c ctx.slave_address [cmd >>> 8, cmd &&& 0xFF] 100,
              Event.receive ctx.i2c ctx.slave_address 3 100])).1 = HAL_OK ∧
        (HAL_I2C_Master_Receive hal ctx.i2c ctx.slave_address [0, 0, 0] 3 100
            (trace ++ [Event.transmit ctx.i2c ctx.slave_address [cmd >>> 8, cmd &&& 0xFF] 100])
          ).2.1.getD 2 0 =
          thermo26_calculate_crc (HAL_I2C_Master_Receive hal ctx.i2c ctx.slave_address
            [0, 0, 0] 3 100
            (trace ++ [Event.transmit ctx.i2c ctx.slave_address [cmd >>> 8, cmd &&& 0xFF] 100])
            ).2.1) ∧
      ((hal.i2c_transmit
            (trace ++ [Event.transmit ctx.i2c ctx.slave_address [cmd >>> 8, cmd &&& 0xFF] 100])
          ).lor
          (hal.i2c_receive
            (trace ++ [Event.transmit ctx.i2c ctx.slave_address [cmd >>> 8, cmd &&& 0xFF] 100,
              Event.receive ctx.i2c ctx.slave_address 3 100])).1 ≠ HAL_OK →
        (thermo26_read_command hal ctx cmd data_out trace).1 = HAL_ERROR) := by
  have hiff : (thermo26_read_command hal ctx cmd data_out trace).1 = HAL_OK ↔
      (hal.i2c_transmit
          (trace ++ [Event.transmit ctx.i2c ctx.slave_address [cmd >>> 8, cmd &&& 0xFF] 100])
        ).lor
        (hal.i2c_receive
          (trace ++ [Event.transmit ctx.i2c ctx.slave_address [cmd >>> 8, cmd &&& 0xFF] 100,
            Event.receive ctx.i2c ctx.slave_address 3 100])).1 = HAL_OK ∧
      (HAL_I2C_Master_Receive hal ctx.i2c ctx.slave_address [0, 0, 0] 3 100
          (trace ++ [Event.transmit ctx.i2c ctx.slave_address [cmd >>> 8, cmd &&& 0xFF] 100])
        ).2.1.getD 2 0 =
        thermo26_calculate_crc (HAL_I2C_Master_Receive hal ctx.i2c ctx.slave_address
          [0, 0, 0] 3 100
          (trace ++ [Event.transmit ctx.i2c ctx.slave_address [cmd >>> 8, cmd &&& 0xFF] 100])
          ).2.1 := by
    rw [thermo26_read_command_unfold, thermo26_cmd_bytes_eq cmd hcmd, lor_eq_HAL_OK,
      List.append_assoc, List.singleton_append, and_assoc]
    split
    · rename_i hc
      exact ⟨fun _ => hc, fun _ => rfl⟩
    · rename_i hc
      exact ⟨fun h => HAL_StatusTypeDef.noConfusion h, fun h => absurd h hc⟩
  refine ⟨?_, hiff, ?_⟩
  · rw [thermo26_read_command_trace, thermo26_cmd_bytes_eq cmd hcmd]
  · intro hflag
    have hnot : (thermo26_read_command hal ctx cmd data_out trace).1 ≠ HAL_OK :=
      fun h => hflag (hiff.mp h).1
    rw [thermo26_read_command_unfold] at hnot ⊢
    split
    · rename_i hc
      rw [if_pos hc] at hnot
      exact absurd rfl hnot
    · rfl

/-- Witness for C19: the write fails and the receive still takes place. -/
theorem thermo26_read_command_no_short_circuit_witness :
    (thermo26_read_command (hal_const HAL_ERROR HAL_OK [0xBE, 0xEF, 0x92]) ctx_sample
        0xE000 0 []).2.2 =
        [] ++ [Event.transmit ctx_sample.i2c ctx_sample.slave_address
            [0xE000 >>> 8, 0xE000 &&& 0xFF] 100,
          Event.receive ctx_sample.i2c ctx_sample.slave_address 3 100] ∧
      (thermo26_read_command (hal_const HAL_ERROR HAL_OK [0xBE, 0xEF, 0x92]) ctx_sample
        0xE000 0 []).1 = HAL_ERROR :=
  have h := thermo26_read_command_no_short_circuit
    (hal_const HAL_ERROR HAL_OK [0xBE, 0xEF, 0x92]) ctx_sample 0xE000 0 [] (by decide)
  ⟨h.1, h.2.2 (by decide)⟩

/-! ## The handle after initialisation -/

/-- C16: `thermo26_init` sets the slave address of the handle to
`THERMO26_DEVICE_ADDRESS_0`, which is 0x94 and fits the 8-bit field.  Every
other driver operation leaves every field of the handle unchanged and makes its
bus transfers with the stored address; so after any sequence of such operations
on an initialised handle the handle is still the initialised one and every bus
transfer went to 0x94. -/
theorem thermo26_handle_address_fixed (hal : HAL) (ctx0 : thermo26_t) (i2c : Nat)
    (calls : List DriverCall) (trace : List Event) :
    (thermo26_init ctx0 i2c).slave_address = THERMO26_DEVICE_ADDRESS_0 ∧
      THERMO26_DEVICE_ADDRESS_0 = 0x94 ∧ THERMO26_DEVICE_ADDRESS_0 < 256 ∧
      (∀ (call : DriverCall) (ctx : thermo26_t) (tr : List Event),
        ∃ new : List Event, call.run hal (ctx, tr) = (ctx, tr ++ new) ∧
          ∀ e ∈ new, ∀ a, e.bus_address = some a → a = ctx.slave_address) ∧
      (∃ new : List Event,
        run_calls hal calls (thermo26_init ctx0 i2c, trace)
          = (thermo26_init ctx0 i2c, trace ++ new) ∧
        ∀ e ∈ new, ∀ a, e.bus_address = some a → a = 0x94) := by
  have hinit : (thermo26_init ctx0 i2c).slave_address = THERMO26_DEVICE_ADDRESS_0 := by
    show THERMO26_DEVICE_ADDRESS_0 % 256 = THERMO26_DEVICE_ADDRESS_0
    decide
  refine ⟨hinit, by decide, by decide, DriverCall.run_frame hal, ?_⟩
  obtain ⟨new, hrun, haddr⟩ := run_calls_frame hal calls (thermo26_init ctx0 i2c) trace
  exact ⟨new, hrun, haddr⟩

/-! ## Error detection of the frame check -/

/-- C20: let `(b0, b1, thermo26_calculate_crc (b0, b1))` be the valid frame of the
data bytes `b0`, `b1`.  Every frame `(c0, c1, c2)` that differs from it in
exactly one of its three bytes fails the checksum comparison, so
`thermo26_read_command` returns `HAL_ERROR` for it; and the checksum is
injective in each data byte when the other one is fixed. -/
theorem thermo26_frame_detects_single_byte_error (b0 b1 c0 c1 c2 : Nat)
    (hb0 : b0 < 256) (hb1 : b1 < 256) (hc0 : c0 < 256) (hc1 : c1 < 256) (hc2 : c2 < 256)
    (hone : (c0 ≠ b0 ∧ c1 = b1 ∧ c2 = thermo26_calculate_crc [b0, b1]) ∨
      (c0 = b0 ∧ c1 ≠ b1 ∧ c2 = thermo26_calculate_crc [b0, b1]) ∨
      (c0 = b0 ∧ c1 = b1 ∧ c2 ≠ thermo26_calculate_crc [b0, b1])) :
    c2 ≠ thermo26_calculate_crc [c0, c1] ∧
      (∀ (hal : HAL) (ctx : thermo26_t) (cmd data_out : Nat) (trace : List Event),
        cmd < 65536 →
        (hal.i2c_receive
          (trace ++ [Event.transmit ctx.i2c ctx.slave_address [cmd >>> 8, cmd &&& 0xFF] 100,
            Event.receive ctx.i2c ctx.slave_address 3 100])).2 = [c0, c1, c2] →
        (thermo26_read_command hal ctx cmd data_out trace).1 = HAL_ERROR) ∧
      (thermo26_calculate_crc [b0, c1] = thermo26_calculate_crc [b0, b1] → c1 = b1) ∧
      (thermo26_calculate_crc [c0, b1] = thermo26_calculate_crc [b0, b1] → c0 = b0) := by
  have hne : c2 ≠ thermo26_calculate_crc [c0, c1] := by
    rcases hone with ⟨h0, h1, h2⟩ | ⟨h0, h1, h2⟩ | ⟨h0, h1, h2⟩
    · subst h1
      rw [h2]
      intro h
      exact h0 (thermo26_calculate_crc_injective_first b0 c1 c0 hb0 hc1 hc0 h.symm)
    · subst h0
      rw [h2]
      intro h
      exact h1 (thermo26_calculate_crc_injective_second c0 b1 c1 hb1 hc1 h.symm)
    · subst h0 h1
      exact h2
  refine ⟨hne, ?_, ?_, ?_⟩
  · intro hal ctx cmd data_out trace hcmd hrx
    exact (thermo26_read_command_mismatch_gen hal ctx cmd data_out trace c0 c1 c2 hc0 hc1 hc2
      (by rw [thermo26_cmd_bytes_eq cmd hcmd, List.append_assoc]; exact hrx) hne).1
  · exact thermo26_calculate_crc_injective_second b0 b1 c1 hb1 hc1
  · exact thermo26_calculate_crc_injective_first b0 b1 c0 hb0 hb1 hc0

/-- Witness for C20: one bit of the second byte of the frame `[0xBE, 0xEF, 0x92]`
is flipped. -/
theorem thermo26_frame_detects_single_byte_error_witness :
    0x92 ≠ thermo26_calculate_crc [0xBE, 0xEE] ∧
      (thermo26_read_command (hal_const HAL_OK HAL_OK [0xBE, 0xEE, 0x92]) ctx_sample
        0xE000 0 []).1 = HAL_ERROR :=
  have h := thermo26_frame_detects_single_byte_error 0xBE 0xEF 0xBE 0xEE 0x92
    (by decide) (by decide) (by decide) (by decide) (by decide)
    (Or.inr (Or.inl (by decide)))
  ⟨h.1, h.2.1 (hal_const HAL_OK HAL_OK [0xBE, 0xEE, 0x92]) ctx_sample 0xE000 0 []
    (by decide) rfl⟩

end Thermo26
